import Mathlib

/-!
Verification of the repair-orchestration action (baiq-autofix).

The development shallowly embeds the string-processing library
(`src/lib.ts`), the diff safety validator (`validateDiff`), the
retry-budget parsing and the orchestration control flow of `run`
(`src/index.ts`) as executable Lean definitions, and proves or refutes
the frozen claims about them.

Modelling conventions:
- JavaScript strings are modelled as Lean `String` (claims only involve
  ASCII data, so UTF-16 length and Lean char length agree).
- JS whitespace (for `trim`, `trimEnd` and the regex class) is modelled
  as ASCII whitespace characters.
- `split(/\r?\n/)` is modelled by `charLines`, `split("\n")` by
  `nlChunks`.
- Fallible code returns `Option`/`Except`; exceptions become `.error`.
-/

/-- Whitespace predicate modelling the JS whitespace class used by
`trim`, `trimEnd` and the regex class in the heading patterns. -/
def isWsChar (c : Char) : Bool :=
  c = ' ' || c = '\t' || c = '\n' || c = '\r' || c = '\x0b' || c = '\x0c'

/-- Leading-whitespace removal on character lists (JS `trimStart`). -/
def wsDropLeft (cs : List Char) : List Char := cs.dropWhile isWsChar

/-- Trailing-whitespace removal on character lists (JS `trimEnd`). -/
def wsDropRight (cs : List Char) : List Char :=
  (cs.reverse.dropWhile isWsChar).reverse

/-- Both-ends whitespace removal on character lists (JS `trim`). -/
def jsTrimChars (cs : List Char) : List Char := wsDropRight (wsDropLeft cs)

/-- JS `String.prototype.trim`. -/
def jsTrimStr (s : String) : String := String.mk (jsTrimChars s.data)

/-- JS `String.prototype.trimEnd`. -/
def jsTrimEndStr (s : String) : String := String.mk (wsDropRight s.data)

/-- Prepends a character to the first chunk of a chunk list. -/
def consHead (c : Char) : List (List Char) → List (List Char)
  | [] => [[c]]
  | l :: ls => (c :: l) :: ls

/-- Splitting on the regex `\r?\n` (JS `split(/\r?\n/)`): a `"\r\n"`
pair or a lone `"\n"` separates lines; a lone `"\r"` stays in place. -/
def charLines : List Char → List (List Char)
  | [] => [[]]
  | '\n' :: rest => [] :: charLines rest
  | '\r' :: '\n' :: rest => [] :: charLines rest
  | c :: rest => consHead c (charLines rest)

/-- Splitting on the one-character string `"\n"` (JS `split("\n")`). -/
def nlChunks : List Char → List (List Char)
  | [] => [[]]
  | '\n' :: rest => [] :: nlChunks rest
  | c :: rest => consHead c (nlChunks rest)

/-- String-level `split(/\r?\n/)`. -/
def splitLinesJS (s : String) : List String := (charLines s.data).map String.mk

/-- String-level `split("\n")`. -/
def nlSplit (s : String) : List String := (nlChunks s.data).map String.mk

/-- JS `Array.prototype.join("\n")`. -/
def joinLF : List String → String
  | [] => ""
  | [x] => x
  | x :: y :: t => x ++ "\n" ++ joinLF (y :: t)

/-- Case-insensitive character-list equality (the `i` regex flag,
modelled for ASCII via `Char.toLower`). -/
def ciEq (a b : List Char) : Bool := a.map Char.toLower == b.map Char.toLower

/-- Length of the maximal leading whitespace run. -/
def countLeadingWs (cs : List Char) : Nat := (cs.takeWhile isWsChar).length

/-- Matching of `\s*<label>\s*$` against `r` with backtracking over how
many leading whitespace characters `\s*` consumes. -/
def matchAfterHash (r lbl : List Char) : Bool :=
  (List.range (countLeadingWs r + 1)).any fun d =>
    ciEq ((r.drop d).take lbl.length) lbl && ((r.drop d).drop lbl.length).all isWsChar

/-- Test of the heading regex `^#{1,6}\s*<label>\s*$` (case-insensitive,
label escaped to a literal) built by `extractIssueFormFieldValue` and
`stripIssueSections` in `src/lib.ts`. -/
def headingMatchChars (lbl cs : List Char) : Bool :=
  (List.range 6).any fun k =>
    cs.take (k + 1) = List.replicate (k + 1) '#' &&
    matchAfterHash (cs.drop (k + 1)) lbl

/-- Test of the regex `^#{1,6}\s+` (a hash run of length 1 to 6 followed
by a whitespace character) used as the heading detector. -/
def hashWsStartB (cs : List Char) : Bool :=
  (List.range 6).any fun k =>
    cs.take (k + 1) = List.replicate (k + 1) '#' &&
    match (cs.drop (k + 1)).head? with
    | some c => isWsChar c
    | none => false

/-- Embedding of `truncate` from `src/lib.ts`: returns the string
unchanged when within the limit, otherwise the first `maxChars`
characters followed by a marker recording the number of removed
characters. -/
def truncate (s : String) (maxChars : Nat) : String :=
  if s.length ≤ maxChars then s
  else String.mk (s.data.take maxChars) ++ "\n[TRUNCATED: " ++
    toString (s.length - maxChars) ++ " chars]"

/-- Inner loop of `extractIssueFormFieldValue`: scans the lines for the
first heading matching the label, then collects following lines up to
the next raw line matching `^#{1,6}\s+` and post-processes them. -/
def extractGo (label : String) : List String → Option String
  | [] => none
  | l :: rest =>
    if headingMatchChars label.data (jsTrimStr l).data then
      let out := rest.takeWhile (fun x => !hashWsStartB x.data)
      let val := jsTrimStr (joinLF
        (((splitLinesJS (joinLF out)).map jsTrimStr).filter (fun s => !s.isEmpty)))
      if val.isEmpty then none else some val
    else extractGo label rest

/-- Embedding of `extractIssueFormFieldValue` from `src/lib.ts`. -/
def extractIssueFormFieldValue (issueBody label : String) : Option String :=
  if (jsTrimStr issueBody).isEmpty then none
  else extractGo label (splitLinesJS issueBody)

/-- Target-heading test of `stripIssueSections`: the trimmed line is a
heading (`^#{1,6}\s+`) and matches one of the label regexes. -/
def targetLineB (labels : List String) (l : String) : Bool :=
  hashWsStartB (jsTrimStr l).data &&
    labels.any (fun lab => headingMatchChars lab.data (jsTrimStr l).data)

/-- Heading-shaped test used by the skip loop of `stripIssueSections`
(tested on the trimmed line). -/
def headingLikeLine (l : String) : Bool := hashWsStartB (jsTrimStr l).data

theorem dropWhileLenLe {α : Type} (p : α → Bool) (l : List α) :
    (l.dropWhile p).length ≤ l.length := by
  induction l with
  | nil => simp [List.dropWhile]
  | cons x xs ih =>
    simp only [List.dropWhile]
    split
    · exact Nat.le_succ_of_le ih
    · simp

/-- Line scan of `stripIssueSections` with an explicit flag recording
whether the scan is inside the skip loop that follows a matched target
heading. The theorems `stripGo_nil`, `stripGo_target` and
`stripGo_keep` below recover the literal shape of the source loop (on a
target heading, drop lines up to the next heading-shaped line). -/
def stripScan (labels : List String) : Bool → List String → List String
  | _, [] => []
  | skipping, l :: rest =>
    if targetLineB labels l then stripScan labels true rest
    else if skipping && !headingLikeLine l then stripScan labels true rest
    else l :: stripScan labels false rest

/-- Outer loop of `stripIssueSections`, starting outside any skip. -/
def stripGo (labels : List String) (ls : List String) : List String :=
  stripScan labels false ls

theorem stripScan_skip (labels : List String) (rest : List String) :
    stripScan labels true rest =
      stripScan labels false (rest.dropWhile (fun nl => !headingLikeLine nl)) := by
  induction rest with
  | nil => simp [stripScan, List.dropWhile]
  | cons l rest ih =>
    by_cases ht : targetLineB labels l
    · have hh : headingLikeLine l := by
        have := ht
        unfold targetLineB at this
        unfold headingLikeLine
        exact (Bool.and_elim_left this)
      simp [stripScan, ht, List.dropWhile, hh]
    · by_cases hh : headingLikeLine l
      · simp [stripScan, ht, List.dropWhile, hh]
      · simp [stripScan, ht, List.dropWhile, hh, ih]

theorem stripGo_nil (labels : List String) : stripGo labels [] = [] := rfl

/-- On a target heading the source loop skips the following lines up to
(exclusive) the next heading-shaped line. -/
theorem stripGo_target (labels : List String) (l : String) (rest : List String)
    (h : targetLineB labels l = true) :
    stripGo labels (l :: rest) =
      stripGo labels (rest.dropWhile (fun nl => !headingLikeLine nl)) := by
  unfold stripGo
  rw [show stripScan labels false (l :: rest) = stripScan labels true rest by
    simp [stripScan, h]]
  exact stripScan_skip labels rest

/-- A non-target line is kept verbatim by the source loop. -/
theorem stripGo_keep (labels : List String) (l : String) (rest : List String)
    (h : targetLineB labels l = false) :
    stripGo labels (l :: rest) = l :: stripGo labels rest := by
  unfold stripGo
  simp [stripScan, h]

/-- Embedding of `stripIssueSections` from `src/lib.ts`: blank bodies
are returned unchanged, otherwise the kept lines are joined with `"\n"`
and trailing whitespace is trimmed. -/
def stripIssueSections (issueBody : String) (labels : List String) : String :=
  if (jsTrimStr issueBody).isEmpty then issueBody
  else jsTrimEndStr (joinLF (stripGo labels (splitLinesJS issueBody)))

/-- Boolean prefix test on strings via their character lists. -/
def strStarts (p s : String) : Bool := p.data.isPrefixOf s.data

/-- Drops the first `n` characters of a string. -/
def strDrop (s : String) (n : Nat) : String := String.mk (s.data.drop n)

/-- Modelled from the spec: `normalizeBranchName` strips a leading
`refs/heads/` or `origin/` prefix. `resolveBaseBranch` is imported by
`src/index.ts` and pinned by `test/lib.test.ts`, but its definition is
not among the provided sources; spec section 4.1 describes it. -/
def normalizeBranchName (s : String) : String :=
  if strStarts "refs/heads/" s then strDrop s 11
  else if strStarts "origin/" s then strDrop s 7
  else s

/-- Modelled from the spec: `resolveBaseBranch` picks the explicit
base-branch input when non-empty, else the issue-supplied branch when
non-empty, else the repository default branch, and strips a leading
`refs/heads/` or `origin/` prefix from whichever value wins (spec
section 4.1; behaviour pinned by `test/lib.test.ts` lines 50 to 74). -/
def resolveBaseBranch (issueBranch baseBranchInput defaultBranch : String) : String :=
  normalizeBranchName
    (if baseBranchInput ≠ "" then baseBranchInput
     else if issueBranch ≠ "" then issueBranch
     else defaultBranch)

/-- Digit run to a natural number. -/
def digitsToNat (ds : List Char) : Nat :=
  ds.foldl (fun a c => a * 10 + (c.toNat - 48)) 0

/-- Model of JS `parseInt(s, 10)`: skip leading whitespace, read an
optional sign, then the longest run of decimal digits; no digit yields
`NaN` (`none`). Trailing garbage is ignored. (JS numbers are doubles,
so extremely long digit runs lose precision there; the claims only
concern the sign and small values, which agree.) -/
def parseIntJS (s : String) : Option Int :=
  let cs := s.data.dropWhile isWsChar
  let sc : Int × List Char :=
    match cs with
    | '-' :: t => (-1, t)
    | '+' :: t => (1, t)
    | _ => (1, cs)
  let digs := sc.2.takeWhile Char.isDigit
  if digs.isEmpty then none
  else some (sc.1 * (digitsToNat digs : Int))

/-- Embedding of the retry-budget computation in `src/index.ts` lines
155 to 156: `parseInt(input || "3", 10)`, with `NaN` replaced by 3 and
the result clamped from below by `Math.max(1, ...)`. -/
def retryMaxOf (input : String) : Nat :=
  match parseIntJS (if input = "" then "3" else input) with
  | none => 3
  | some v => (max 1 v).toNat

/-- Forbidden-path literals of `validateDiff`: each regex
`/(^|\n)diff --git a\/... b\/...\n?/` is the test whether the literal
occurs at the start of the diff or right after a newline. -/
def forbiddenDiffPats : List String :=
  ["diff --git a/package-lock.json b/package-lock.json\n",
   "diff --git a/pnpm-lock.yaml b/pnpm-lock.yaml\n",
   "diff --git a/yarn.lock b/yarn.lock\n",
   "diff --git a/.github/workflows/"]

/-- Boolean infix test on character lists. -/
def listInfixB (p s : List Char) : Bool := s.tails.any (fun t => p.isPrefixOf t)

/-- Occurrence of a literal at the start of the string or right after a
newline (the `(^|\n)` alternative of the forbidden-path regexes). -/
def hitAtLineStart (diff pat : String) : Bool :=
  pat.data.isPrefixOf diff.data || listInfixB ("\n" ++ pat).data diff.data

/-- Consumes one or more decimal digits (`\d+`), maximal munch. -/
def munchDigits : List Char → Option (List Char)
  | c :: rest => if c.isDigit then some (rest.dropWhile Char.isDigit) else none
  | [] => none

/-- Consumes one or more whitespace characters (`\s+`), maximal munch. -/
def munchWs1 : List Char → Option (List Char)
  | c :: rest => if isWsChar c then some (rest.dropWhile isWsChar) else none
  | [] => none

/-- Consumes `\d+(,\d+)?`: a digit run, then optionally a comma and a
second digit run; a comma not followed by a digit is left unconsumed
(the optional group fails and is skipped, as with regex backtracking). -/
def munchPair (cs : List Char) : Option (List Char) := do
  let r ← munchDigits cs
  match r with
  | ',' :: r2 =>
    match munchDigits r2 with
    | some r3 => some r3
    | none => some r
  | _ => some r

/-- Test of the hunk-header regex
`^@@\s+-\d+(,\d+)?\s+\+\d+(,\d+)?\s+@@` (a prefix match; arbitrary text
may follow the closing `@@`). -/
def hunkHeaderOkB (l : String) : Bool :=
  match l.data with
  | '@' :: '@' :: r0 =>
    (do
      let r1 ← munchWs1 r0
      let r2 ← match r1 with | '-' :: t => some t | _ => none
      let r3 ← munchPair r2
      let r4 ← munchWs1 r3
      let r5 ← match r4 with | '+' :: t => some t | _ => none
      let r6 ← munchPair r5
      let r7 ← munchWs1 r6
      match r7 with
      | '@' :: '@' :: _ => some ()
      | _ => none).isSome
  | _ => false

/-- Test of the malformed-hunk regex `^@@\s*$/m` on one `"\n"`-split
line: the line is `@@` followed only by whitespace. -/
def emptyHunkLineB (l : String) : Bool :=
  ("@@").data.isPrefixOf l.data && (l.data.drop 2).all isWsChar

/-- Line starting with `@@` (JS `line.startsWith("@@")`). -/
def atAtLineB (l : String) : Bool := ("@@").data.isPrefixOf l.data

/-- Error message of the forbidden-path rejection. -/
def forbiddenMsg : String :=
  "Generated diff touches a forbidden file (lockfiles or .github/workflows). Refusing to apply."

/-- Error message of the binary-patch rejection. -/
def binaryMsg : String := "Binary patches are not supported."

/-- Error message of the malformed-hunk rejection. -/
def malformedMsg : String :=
  "Generated diff has malformed hunk headers (missing line numbers). Expected format: @@ -start,count +start,count @@"

/-- Embedding of `validateDiff` (diff safety validator): checks the
forbidden-path patterns in order, then the binary-patch marker, then
the empty `@@` hunk line, and finally, when any line starts with `@@`,
that every such line is a well-formed hunk header. A thrown `Error`
becomes `.error`. -/
def validateDiff (diff : String) : Except String Unit :=
  if forbiddenDiffPats.any (fun p => hitAtLineStart diff p) then .error forbiddenMsg
  else if (nlSplit diff).any (fun l => ("GIT binary patch").data.isPrefixOf l.data) then
    .error binaryMsg
  else if (nlSplit diff).any emptyHunkLineB then .error malformedMsg
  else if (nlSplit diff).any atAtLineB &&
      !((nlSplit diff).filter atAtLineB).all hunkHeaderOkB then
    .error malformedMsg
  else .ok ()

theorem isPrefixOfAppendSelf (p t : List Char) : p.isPrefixOf (p ++ t) = true := by
  induction p with
  | nil => simp [List.isPrefixOf]
  | cons c cs ih => simp [List.isPrefixOf, ih]

/-- C9 (counterexample): the claim says the truncated result does not
exceed the limit, but `truncate` appends the marker beyond the limit:
at input `"aaaaaa"` with limit 5 the result has 26 characters. -/
theorem C9_truncate_counterexample :
    5 < ("aaaaaa" : String).length ∧ ¬ (truncate "aaaaaa" 5).length ≤ 5 := by
  decide

/-- C9 (amended): `truncate s m` returns `s` unchanged when `s` has at
most `m` characters; otherwise it returns the first `m` characters of
`s` (a prefix of `s` of length at most `m`) followed by a marker
recording how many characters were removed. The marker itself extends
past the limit, so only the payload before the marker respects it. -/
theorem C9_truncate_amended (s : String) (m : Nat) :
    (s.length ≤ m → truncate s m = s) ∧
    (m < s.length →
      truncate s m = String.mk (s.data.take m) ++ "\n[TRUNCATED: " ++
        toString (s.length - m) ++ " chars]" ∧
      (String.mk (s.data.take m)).length ≤ m ∧
      (String.mk (s.data.take m)).data <+: s.data) := by
  constructor
  · intro h
    simp [truncate, h]
  · intro h
    refine ⟨?_, ?_, ?_⟩
    · simp [truncate, Nat.not_le.mpr h]
    · show (s.data.take m).length ≤ m
      simp [List.length_take]
    · exact List.take_prefix m s.data

theorem C9_truncate_amended_witness :
    5 < ("aaaaaa" : String).length ∧
      truncate "aaaaaa" 5 = String.mk (("aaaaaa" : String).data.take 5) ++
        "\n[TRUNCATED: " ++ toString (("aaaaaa" : String).length - 5) ++ " chars]" :=
  ⟨by decide, ((C9_truncate_amended "aaaaaa" 5).2 (by decide)).1⟩

/-- C6 (code bug): on a section holding only the GitHub issue-form
placeholder `_No response_`, `extractIssueFormFieldValue` returns the
placeholder as a real value, although `test/lib.test.ts` (lines 41 to
44) asserts `undefined` and the README documents that the placeholder
is treated as empty. -/
theorem C6_placeholder_divergence :
    extractIssueFormFieldValue
      "# Branch where bug was discovered\n_No response_\n\n# Bug description\nIt fails."
      "Branch where bug was discovered" = some "_No response_" := by rfl

/-- C7: `resolveBaseBranch` prefers the explicit base-branch input,
then the issue-supplied branch, then the repository default, and strips
a leading `refs/heads/` or `origin/` prefix from the winning value
(while leaving values without such a prefix unchanged). -/
theorem C7_resolveBaseBranch_precedence :
    (∀ ib bi db : String, bi ≠ "" → resolveBaseBranch ib bi db = normalizeBranchName bi) ∧
    (∀ ib db : String, ib ≠ "" → resolveBaseBranch ib "" db = normalizeBranchName ib) ∧
    (∀ db : String, resolveBaseBranch "" "" db = normalizeBranchName db) ∧
    (∀ b : String, normalizeBranchName ("refs/heads/" ++ b) = b) ∧
    (∀ b : String, normalizeBranchName ("origin/" ++ b) = b) ∧
    (∀ b : String, strStarts "refs/heads/" b = false → strStarts "origin/" b = false →
      normalizeBranchName b = b) := by
  refine ⟨?_, ?_, ?_, ?_, ?_, ?_⟩
  · intro ib bi db h
    simp [resolveBaseBranch, h]
  · intro ib db h
    simp [resolveBaseBranch, h]
  · intro db
    simp [resolveBaseBranch]
  · intro b
    have hpre : strStarts "refs/heads/" ("refs/heads/" ++ b) = true := by
      show (("refs/heads/" : String).data).isPrefixOf
        (("refs/heads/" : String).data ++ b.data) = true
      exact isPrefixOfAppendSelf _ _
    have hlen : ("refs/heads/" : String).data.length = 11 := rfl
    simp only [normalizeBranchName, hpre, if_true]
    show String.mk ((("refs/heads/" : String).data ++ b.data).drop 11) = b
    rw [← hlen, List.drop_left]
  · intro b
    have hpre1 : strStarts "refs/heads/" ("origin/" ++ b) = false := rfl
    have hpre2 : strStarts "origin/" ("origin/" ++ b) = true := by
      show (("origin/" : String).data).isPrefixOf
        (("origin/" : String).data ++ b.data) = true
      exact isPrefixOfAppendSelf _ _
    have hlen : ("origin/" : String).data.length = 7 := rfl
    simp only [normalizeBranchName, hpre1, hpre2, if_true, Bool.false_eq_true, if_false]
    show String.mk ((("origin/" : String).data ++ b.data).drop 7) = b
    rw [← hlen, List.drop_left]
  · intro b h1 h2
    simp [normalizeBranchName, h1, h2]

theorem C7_resolveBaseBranch_witness :
    ("main" : String) ≠ "" ∧
      resolveBaseBranch "develop" "main" "master" = normalizeBranchName "main" :=
  ⟨by decide, C7_resolveBaseBranch_precedence.1 "develop" "main" "master" (by decide)⟩

/-- Result of a subprocess invocation (`ExecResult` in `src/types.ts`). -/
structure ExecResult where
  stdout : String
  stderr : String
  exitCode : Int
deriving DecidableEq, Repr

/-- The two agent variants (`AgentType` in `src/agents/types.ts`). The
string-tag validation `isValidAgentType` is subsumed by this type. -/
inductive AgentKind
  | codex
  | aider
deriving DecidableEq, Repr

/-- Interpolated name of an agent variant. -/
def agentName : AgentKind → String
  | .codex => "codex"
  | .aider => "aider"

/-- Validated action inputs of `run` (after the `core.getInput`
defaulting at the top of `src/index.ts`). -/
structure RunConfig where
  agentType : AgentKind
  openaiApiKey : String
  anthropicApiKey : String
  requiredLabel : String
  baseBranchInput : String
  testCommandSpecificInput : String
  testCommandSuiteInput : String
  retryMaxInput : String
  workingDirectoryInput : String
  repoRoot : String
  model : String

/-- Environment oracle for one run: everything `run` learns from the
GitHub event, the GitHub API, and the subprocesses it spawns. Network
results (issue title/body, referenced-issue context blocks, default
branch, base-branch existence, PR-creation success) and subprocess
results (pre-fix test, per-invocation agent result, per-attempt working
tree status and verification test results) are inputs of the model. -/
structure RunEnv where
  eventIsIssues : Bool
  issueNumber : Option Nat
  labels : List String
  issueTitle : String
  issueBody : String
  referencedContexts : List String
  defaultBranch : String
  baseBranchExists : Bool
  preTestResult : ExecResult
  agentResults : Nat → ExecResult
  treeChangedAfter : Nat → Bool
  suiteResults : Nat → ExecResult
  specificResults : Nat → ExecResult
  prCreateOk : Bool

/-- Phase of an engine-executed test command: the pre-fix failure
capture, or the verification step of a retry attempt. -/
inductive TestPhase
  | preFix
  | verify (attempt : Nat)
deriving DecidableEq, Repr

/-- One test command executed by the engine itself (via `exec`), with
the number of agent invocations that happened before it. -/
structure TestExec where
  cmd : String
  phase : TestPhase
  beforeAgentInvocations : Nat
deriving DecidableEq, Repr

/-- One attempt of the retry loop: its 0-based index, the prompt sent
to the agent, the agent result, the working-tree change flag, and the
verification command/result when the engine ran one. -/
structure AttemptRec where
  idx : Nat
  prompt : String
  agentExit : Int
  treeChanged : Bool
  verifyRun : Option (String × ExecResult)
deriving DecidableEq, Repr

/-- Terminal outcome of a modelled run. -/
inductive Outcome
  | configError
  | skippedEvent
  | errorNoIssue
  | skippedLabel
  | baseBranchMissing
  | aiderFailed
  | agentFailed
  | noChangesMade
  | testsFailed
  | exhausted
  | prOpened
  | prCreateError
deriving DecidableEq, Repr

/-- Observable trace and terminal state of one modelled run. -/
structure RunResult where
  outcome : Outcome
  agentInstalled : Bool
  branchCreated : Bool
  attempts : List AttemptRec
  testExecs : List TestExec
  agentTestCommand : Option String
  commitRun : Bool
  prsOpened : Nat
  succeededAttempt : Option Nat
deriving DecidableEq, Repr

/-- JS `Array.prototype.join` with an arbitrary separator. -/
def joinSep (sep : String) : List String → String
  | [] => ""
  | [x] => x
  | x :: y :: t => x ++ sep ++ joinSep sep (y :: t)

/-- Embedding of `buildAgentPrompt` from `src/index.ts` (lines 46 to
87). Optional parameters are `Option`s; JS truthiness makes an empty
string behave like an absent one. -/
def buildAgentPrompt (issueTitle issueBody : String) (agentType : AgentKind)
    (testFailureOutput : Option String) (retryAttempt : Option Nat)
    (previousTestFailure : Option String) : String :=
  let p1 :=
    "You are fixing a bug in this codebase based on a GitHub bug report issue.\n\n" ++
    "The bug report structure is:\n" ++
    "- TEST CASE: describes preconditions, step-by-step actions, and expected result\n" ++
    "- BUG DESCRIPTION: explains expected vs actual behavior (the bug)\n\n" ++
    "ISSUE TITLE: " ++ issueTitle ++ "\n\n" ++
    "ISSUE BODY:\n" ++ issueBody ++ "\n\n"
  let p2 := p1 ++
    (match testFailureOutput with
     | some t =>
       if t.isEmpty then ""
       else "TEST FAILURE OUTPUT (from running the specific test before fix):\n" ++ t ++ "\n\n"
     | none => "")
  let p3 := p2 ++
    (match retryAttempt, previousTestFailure with
     | some a, some p =>
       if a ≠ 0 && !p.isEmpty then
         "IMPORTANT: This is retry attempt #" ++ toString (a + 1) ++
         ". The previous fix attempt failed the tests.\n" ++
         "PREVIOUS TEST FAILURE OUTPUT:\n" ++ p ++ "\n\n" ++
         "Please analyze why the previous fix was incorrect and provide a different solution.\n\n"
       else ""
     | _, _ => "")
  p3 ++
    "YOUR TASK:\n" ++
    "1. Analyze the bug report and test failure output\n" ++
    "2. Find the root cause of the bug in the codebase\n" ++
    "3. Apply all necessary fixes so that the actual behavior fully matches the expected behavior. Ensure the solution is correct, efficient, and follows best practices\n" ++
    "4. Do NOT modify lockfiles (package-lock.json, pnpm-lock.yaml, yarn.lock) or .github/workflows/*\n" ++
    "5. Do NOT add unnecessary changes - keep the fix focused and minimal\n\n" ++
    "IMPORTANT RESTRICTIONS:\n" ++
    (if agentType = .aider then "" else "- Do NOT run any tests - the CI system will run them\n") ++
    "- Do NOT run git commands (no git add, git commit, git push) - the CI system handles all git operations\n" ++
    "- ONLY modify the source files needed to fix the bug"

/-- Effective specific test command: issue field first, then the action
input (JS `extract(...) || fallback`; the extractor never yields an
empty string). -/
def effSpecific (cfg : RunConfig) (env : RunEnv) : String :=
  (extractIssueFormFieldValue env.issueBody
    "Test command (specific test for this bug)").getD cfg.testCommandSpecificInput

/-- Effective full-suite test command: issue field first, then the
action input. -/
def effSuite (cfg : RunConfig) (env : RunEnv) : String :=
  (extractIssueFormFieldValue env.issueBody
    "Test command (full suite for regression)").getD cfg.testCommandSuiteInput

/-- Issue-supplied branch field. -/
def issueBranchOf (env : RunEnv) : String :=
  (extractIssueFormFieldValue env.issueBody "Branch where bug was discovered").getD ""

/-- Resolved base branch of the run. -/
def baseBranchOf (cfg : RunConfig) (env : RunEnv) : String :=
  resolveBaseBranch (issueBranchOf env) cfg.baseBranchInput env.defaultBranch

/-- Issue body placed into the prompt: the user-story sections are
stripped, referenced-issue context is appended, and the result is
truncated to 180000 characters. -/
def bodyForPrompt (env : RunEnv) : String :=
  truncate
    (stripIssueSections env.issueBody ["User story issue (reference)", "User story issue"] ++
      (if env.referencedContexts.isEmpty then ""
       else "\n\n" ++ joinSep "\n\n" env.referencedContexts))
    180000

/-- Working directory for test commands and the agent. -/
def workingDirOf (cfg : RunConfig) : String :=
  if (jsTrimStr cfg.workingDirectoryInput).isEmpty then cfg.repoRoot
  else cfg.repoRoot ++ "/" ++ jsTrimStr cfg.workingDirectoryInput

/-- Effective retry budget of the run. -/
def retryMaxC (cfg : RunConfig) : Nat := retryMaxOf cfg.retryMaxInput

/-- Combined, trimmed stdout/stderr of a test run. -/
def combinedOut (res : ExecResult) : String := jsTrimStr (res.stdout ++ "\n" ++ res.stderr)

/-- Pre-fix failure output captured by running the specific test before
any agent invocation (lines 291 to 304 of `src/index.ts`). -/
def preFailOutput (cfg : RunConfig) (env : RunEnv) : Option String :=
  if (jsTrimStr (effSpecific cfg env)).isEmpty then none
  else if env.preTestResult.exitCode ≠ 0 then
    some (truncate (combinedOut env.preTestResult) 15000)
  else none

/-- Diagnostic block built for a failed agent invocation (lines 405 to
412 of `src/index.ts`). -/
def fullAgentOutput (cfg : RunConfig) (attempt : Nat) (res : ExecResult) : String :=
  "Attempt: " ++ toString (attempt + 1) ++ "/" ++ toString (retryMaxC cfg) ++ "\n" ++
  "Agent: " ++ agentName cfg.agentType ++ "\n" ++
  "Model: " ++ cfg.model ++ "\n" ++
  "Working directory: " ++ workingDirOf cfg ++ "\n" ++
  "Exit code: " ++ toString res.exitCode ++ "\n\n" ++
  "STDOUT:\n" ++ (if res.stdout.isEmpty then "(empty)" else res.stdout) ++ "\n\n" ++
  "STDERR:\n" ++ (if res.stderr.isEmpty then "(empty)" else res.stderr)

/-- Feedback injected when the agent made no file changes (line 448 of
`src/index.ts`). -/
def noChangesFeedback (cfg : RunConfig) : String :=
  agentName cfg.agentType ++
    " did not make any file changes. Please analyze the issue more carefully and modify the appropriate files."

/-- Output of the manual retry loop. `failOutcome` is meaningful only
when `success` is `none`. -/
structure LoopOut where
  attempts : List AttemptRec
  testExecs : List TestExec
  success : Option (Nat × String)
  failOutcome : Outcome
deriving DecidableEq

/-- Embedding of the manual retry loop of `run` (lines 366 to 510 of
`src/index.ts`), structured over the remaining budget: `remaining`
counts the attempts still allowed (initially `retryMax`), `attempt` is
the current 0-based index, `prevFail` is the feedback threaded from the
previous failed attempt. -/
def codexLoop (cfg : RunConfig) (env : RunEnv) :
    Nat → Nat → Option String → LoopOut
  | 0, _, _ => ⟨[], [], none, .exhausted⟩
  | remaining + 1, attempt, prevFail =>
    let prompt := buildAgentPrompt env.issueTitle (bodyForPrompt env) cfg.agentType
      (preFailOutput cfg env) (some attempt) prevFail
    let res := env.agentResults attempt
    let changed := env.treeChangedAfter attempt
    let isLast := remaining = 0
    if res.exitCode ≠ 0 then
      let rec0 : AttemptRec := ⟨attempt, prompt, res.exitCode, changed, none⟩
      if isLast then ⟨[rec0], [], none, .agentFailed⟩
      else
        let rest := codexLoop cfg env remaining (attempt + 1)
          (some (truncate (fullAgentOutput cfg attempt res) 10000))
        ⟨rec0 :: rest.attempts, rest.testExecs, rest.success, rest.failOutcome⟩
    else if !changed then
      let rec0 : AttemptRec := ⟨attempt, prompt, res.exitCode, changed, none⟩
      if isLast then ⟨[rec0], [], none, .noChangesMade⟩
      else
        let rest := codexLoop cfg env remaining (attempt + 1) (some (noChangesFeedback cfg))
        ⟨rec0 :: rest.attempts, rest.testExecs, rest.success, rest.failOutcome⟩
    else if !(jsTrimStr (effSuite cfg env)).isEmpty then
      let tres := env.suiteResults attempt
      let te : TestExec := ⟨effSuite cfg env, .verify attempt, attempt + 1⟩
      let rec0 : AttemptRec := ⟨attempt, prompt, res.exitCode, changed, some (effSuite cfg env, tres)⟩
      if tres.exitCode ≠ 0 then
        if isLast then ⟨[rec0], [te], none, .testsFailed⟩
        else
          let rest := codexLoop cfg env remaining (attempt + 1)
            (some (truncate (combinedOut tres) 10000))
          ⟨rec0 :: rest.attempts, te :: rest.testExecs, rest.success, rest.failOutcome⟩
      else ⟨[rec0], [te], some (attempt, prompt), .exhausted⟩
    else if !(jsTrimStr (effSpecific cfg env)).isEmpty then
      let tres := env.specificResults attempt
      let te : TestExec := ⟨effSpecific cfg env, .verify attempt, attempt + 1⟩
      let rec0 : AttemptRec := ⟨attempt, prompt, res.exitCode, changed, some (effSpecific cfg env, tres)⟩
      if tres.exitCode ≠ 0 then
        if isLast then ⟨[rec0], [te], none, .testsFailed⟩
        else
          let rest := codexLoop cfg env remaining (attempt + 1)
            (some (truncate (combinedOut tres) 10000))
          ⟨rec0 :: rest.attempts, te :: rest.testExecs, rest.success, rest.failOutcome⟩
      else ⟨[rec0], [te], some (attempt, prompt), .exhausted⟩
    else
      let rec0 : AttemptRec := ⟨attempt, prompt, res.exitCode, changed, none⟩
      ⟨[rec0], [], some (attempt, prompt), .exhausted⟩

/-- Skip condition on the required label (line 200 of `src/index.ts`). -/
def labelSkip (cfg : RunConfig) (env : RunEnv) : Bool :=
  !cfg.requiredLabel.isEmpty && !(env.labels.contains cfg.requiredLabel)

/-- Credential precondition failures thrown before any side effect
(lines 172 to 177 of `src/index.ts`). -/
def configBad (cfg : RunConfig) : Bool :=
  match cfg.agentType with
  | .codex => (jsTrimStr cfg.openaiApiKey).isEmpty
  | .aider => (jsTrimStr cfg.openaiApiKey).isEmpty && (jsTrimStr cfg.anthropicApiKey).isEmpty

/-- Run result with no side effects at all. -/
def emptyResult (o : Outcome) : RunResult := ⟨o, false, false, [], [], none, false, 0, none⟩

/-- Post-success tail of `run`: commit, push, PR creation (retried 3
times against the API, abstracted into `env.prCreateOk`). -/
def finishRun (env : RunEnv) (base : RunResult) (k : Nat) : RunResult :=
  { base with
    commitRun := true
    prsOpened := if env.prCreateOk then 1 else 0
    outcome := if env.prCreateOk then .prOpened else .prCreateError
    succeededAttempt := some k }

/-- Engine-executed pre-fix test record: the specific test is run once,
before any agent invocation, when configured. -/
def preExecsOf (cfg : RunConfig) (env : RunEnv) : List TestExec :=
  if (jsTrimStr (effSpecific cfg env)).isEmpty then []
  else [⟨effSpecific cfg env, .preFix, 0⟩]

/-- Aider branch of `run` (lines 322 to 364 of `src/index.ts`): one
agent invocation with the chained test command; exit code 0 is accepted
as success with no further engine-side check. -/
def aiderStage (cfg : RunConfig) (env : RunEnv) : RunResult :=
  let prompt := buildAgentPrompt env.issueTitle (bodyForPrompt env) .aider
    (preFailOutput cfg env) none none
  let testCmds := joinSep " && "
    (([effSpecific cfg env, effSuite cfg env]).filter
      (fun c => !(jsTrimStr c).isEmpty))
  let res := env.agentResults 0
  let rec0 : AttemptRec := ⟨0, prompt, res.exitCode, env.treeChangedAfter 0, none⟩
  let base : RunResult :=
    ⟨.aiderFailed, true, true, [rec0], preExecsOf cfg env, some testCmds, false, 0, none⟩
  if res.exitCode = 0 then finishRun env base 0 else base

/-- Codex branch of `run`: the manual retry loop followed by the
commit-and-PR tail on success. -/
def codexStage (cfg : RunConfig) (env : RunEnv) : RunResult :=
  let lo := codexLoop cfg env (retryMaxC cfg) 0 none
  let base : RunResult :=
    ⟨lo.failOutcome, true, true, lo.attempts, preExecsOf cfg env ++ lo.testExecs,
      none, false, 0, none⟩
  match lo.success with
  | some (k, _) => finishRun env base k
  | none => base

/-- Embedding of the control flow of `run` (`src/index.ts`): credential
validation, event and label gates, base-branch existence check, pre-fix
specific-test capture, agent install and working-branch creation, then
either the single aider invocation (native test loop) or the manual
codex retry loop, and finally commit plus PR creation on success. -/
def runModel (cfg : RunConfig) (env : RunEnv) : RunResult :=
  if configBad cfg then emptyResult .configError
  else if !env.eventIsIssues then emptyResult .skippedEvent
  else
    match env.issueNumber with
    | none => emptyResult .errorNoIssue
    | some _ =>
      if labelSkip cfg env then emptyResult .skippedLabel
      else if !env.baseBranchExists then emptyResult .baseBranchMissing
      else
        match cfg.agentType with
        | .aider => aiderStage cfg env
        | .codex => codexStage cfg env

theorem runModel_reach (cfg : RunConfig) (env : RunEnv) (n : Nat)
    (hc : configBad cfg = false) (he : env.eventIsIssues = true)
    (hn : env.issueNumber = some n) (hl : labelSkip cfg env = false)
    (hb : env.baseBranchExists = true) :
    runModel cfg env =
      match cfg.agentType with
      | .aider => aiderStage cfg env
      | .codex => codexStage cfg env := by
  unfold runModel
  rw [hn]
  simp [hc, he, hl, hb]

/-- C8: when the resolved base branch does not exist on the remote (and
the run got past the event, issue and label gates), the run terminates
with the base-branch-missing failure having installed no agent, created
no branch, invoked no agent, run no test, made no commit and opened no
PR. -/
theorem C8_base_branch_missing (cfg : RunConfig) (env : RunEnv) (n : Nat)
    (hc : configBad cfg = false) (he : env.eventIsIssues = true)
    (hn : env.issueNumber = some n) (hl : labelSkip cfg env = false)
    (hb : env.baseBranchExists = false) :
    (runModel cfg env).outcome = .baseBranchMissing ∧
    (runModel cfg env).agentInstalled = false ∧
    (runModel cfg env).branchCreated = false ∧
    (runModel cfg env).attempts = [] ∧
    (runModel cfg env).testExecs = [] ∧
    (runModel cfg env).commitRun = false ∧
    (runModel cfg env).prsOpened = 0 := by
  have h : runModel cfg env = emptyResult .baseBranchMissing := by
    unfold runModel
    rw [hn]
    simp [hc, he, hl, hb]
  rw [h]
  exact ⟨rfl, rfl, rfl, rfl, rfl, rfl, rfl⟩

/-- Prompt built for a given attempt of the manual retry loop. -/
def promptAt (cfg : RunConfig) (env : RunEnv) (att : Nat) (pf : Option String) : String :=
  buildAgentPrompt env.issueTitle (bodyForPrompt env) cfg.agentType
    (preFailOutput cfg env) (some att) pf

theorem codexLoop_head (cfg : RunConfig) (env : RunEnv) (rem att : Nat)
    (pf : Option String) (h : rem ≠ 0) :
    ∃ r rest, (codexLoop cfg env rem att pf).attempts = r :: rest ∧
      r.prompt = promptAt cfg env att pf ∧ r.idx = att := by
  cases rem with
  | zero => exact absurd rfl h
  | succ n =>
    unfold codexLoop promptAt
    by_cases h1 : (env.agentResults att).exitCode ≠ 0
    · by_cases h5 : n = 0 <;> simp [h1, h5]
    · by_cases h2 : env.treeChangedAfter att
      · by_cases h3 : (jsTrimStr (effSuite cfg env)).isEmpty
        · by_cases h4 : (jsTrimStr (effSpecific cfg env)).isEmpty
          · simp [h1, h2, h3, h4]
          · by_cases h6 : (env.specificResults att).exitCode ≠ 0
            · by_cases h5 : n = 0 <;> simp [h1, h2, h3, h4, h5, h6]
            · simp [h1, h2, h3, h4, h6]
        · by_cases h6 : (env.suiteResults att).exitCode ≠ 0
          · by_cases h5 : n = 0 <;> simp [h1, h2, h3, h5, h6]
          · simp [h1, h2, h3, h6]
      · by_cases h5 : n = 0 <;> simp [h1, h2, h5]

theorem codexLoop_success_changed (cfg : RunConfig) (env : RunEnv) :
    ∀ rem att pf k p, (codexLoop cfg env rem att pf).success = some (k, p) →
      env.treeChangedAfter k = true := by
  intro rem
  induction rem with
  | zero =>
    intro att pf k p h
    simp [codexLoop] at h
  | succ n ih =>
    intro att pf k p h
    unfold codexLoop at h
    by_cases h1 : (env.agentResults att).exitCode ≠ 0
    · by_cases h5 : n = 0
      · simp [h1, h5] at h
      · simp [h1, h5] at h
        exact ih _ _ _ _ h
    · by_cases h2 : env.treeChangedAfter att
      · by_cases h3 : (jsTrimStr (effSuite cfg env)).isEmpty
        · by_cases h4 : (jsTrimStr (effSpecific cfg env)).isEmpty
          · simp [h1, h2, h3, h4] at h
            exact h.1 ▸ h2
          · by_cases h6 : (env.specificResults att).exitCode ≠ 0
            · by_cases h5 : n = 0
              · simp [h1, h2, h3, h4, h5, h6] at h
              · simp [h1, h2, h3, h4, h5, h6] at h
                exact ih _ _ _ _ h
            · simp [h1, h2, h3, h4, h6] at h
              exact h.1 ▸ h2
        · by_cases h6 : (env.suiteResults att).exitCode ≠ 0
          · by_cases h5 : n = 0
            · simp [h1, h2, h3, h5, h6] at h
            · simp [h1, h2, h3, h5, h6] at h
              exact ih _ _ _ _ h
          · simp [h1, h2, h3, h6] at h
            exact h.1 ▸ h2
      · by_cases h5 : n = 0
        · simp [h1, h2, h5] at h
        · simp [h1, h2, h5] at h
          exact ih _ _ _ _ h

theorem codexLoop_noop (cfg : RunConfig) (env : RunEnv) :
    ∀ rem att pf, rem ≠ 0 →
    (∀ j, j < rem → (env.agentResults (att + j)).exitCode = 0 ∧
      env.treeChangedAfter (att + j) = false) →
    (codexLoop cfg env rem att pf).success = none ∧
    (codexLoop cfg env rem att pf).failOutcome = .noChangesMade ∧
    (codexLoop cfg env rem att pf).testExecs = [] ∧
    (codexLoop cfg env rem att pf).attempts.length = rem := by
  intro rem
  induction rem with
  | zero => intro att pf h _; exact absurd rfl h
  | succ n ih =>
    intro att pf _ hAll
    have h1 : (env.agentResults att).exitCode = 0 := by
      have := (hAll 0 (Nat.succ_pos n)).1
      simpa using this
    have h2 : env.treeChangedAfter att = false := by
      have := (hAll 0 (Nat.succ_pos n)).2
      simpa using this
    by_cases h5 : n = 0
    · unfold codexLoop
      simp [h1, h2, h5]
    · have hShift : ∀ j, j < n → (env.agentResults (att + 1 + j)).exitCode = 0 ∧
        env.treeChangedAfter (att + 1 + j) = false := by
        intro j hj
        have := hAll (j + 1) (by omega)
        have he : att + (j + 1) = att + 1 + j := by omega
        rw [he] at this
        exact this
      have := ih (att + 1) (some (noChangesFeedback cfg)) h5 hShift
      unfold codexLoop
      simp [h1, h2, h5, this.1, this.2.1, this.2.2.1, this.2.2.2]

/-- Substring (infix) occurrence of `p` in `s`. -/
def strInfix (p s : String) : Prop := ∃ x y, s = x ++ p ++ y

theorem strInfix_self_mid (p x y : String) : strInfix p (x ++ p ++ y) := ⟨x, y, rfl⟩

theorem strInfix_append_left (p s q : String) (h : strInfix p s) : strInfix p (q ++ s) := by
  obtain ⟨x, y, hxy⟩ := h
  exact ⟨q ++ x, y, by rw [hxy]; simp [String.append_assoc]⟩

theorem strInfix_append_right (p s r : String) (h : strInfix p s) : strInfix p (s ++ r) := by
  obtain ⟨x, y, hxy⟩ := h
  exact ⟨x, y ++ r, by rw [hxy]; simp [String.append_assoc]⟩

theorem strInfix_empty (s : String) : strInfix "" s := ⟨"", s, rfl⟩

theorem buildPrompt_prevFail_infix (t b : String) (ak : AgentKind)
    (tf : Option String) (a : Nat) (p : String) (ha : a ≠ 0) :
    strInfix p (buildAgentPrompt t b ak tf (some a) (some p)) := by
  by_cases hp : p = ""
  · rw [hp]
    exact strInfix_empty _
  · have hpe : p.isEmpty = false := by
      rw [Bool.eq_false_iff]
      intro hcontra
      exact hp ((String.isEmpty_iff p).mp hcontra)
    have hcond : (decide (a ≠ 0) && !p.isEmpty) = true := by simp [ha, hpe]
    unfold buildAgentPrompt
    simp only [hcond, if_true]
    iterate 10 apply strInfix_append_right
    apply strInfix_append_left
    have : strInfix p
        ("IMPORTANT: This is retry attempt #" ++ toString (a + 1) ++
          ". The previous fix attempt failed the tests.\n" ++
          "PREVIOUS TEST FAILURE OUTPUT:\n" ++ p ++ "\n\n" ++
          "Please analyze why the previous fix was incorrect and provide a different solution.\n\n") := by
      refine ⟨"IMPORTANT: This is retry attempt #" ++ toString (a + 1) ++
        ". The previous fix attempt failed the tests.\n" ++
        "PREVIOUS TEST FAILURE OUTPUT:\n",
        "\n\n" ++ "Please analyze why the previous fix was incorrect and provide a different solution.\n\n",
        ?_⟩
      simp [String.append_assoc]
    exact this

/-- Failure feedback of a failed verification at one attempt occurs
inside the prompt of the directly following attempt. -/
def pairProp (l : List AttemptRec) : Prop :=
  ∀ i r1 r2 cmd tres, l[i]? = some r1 → l[i + 1]? = some r2 →
    r1.verifyRun = some (cmd, tres) → tres.exitCode ≠ 0 →
    strInfix (truncate (combinedOut tres) 10000) r2.prompt

theorem codexLoop_pair (cfg : RunConfig) (env : RunEnv) :
    ∀ rem att pf, pairProp (codexLoop cfg env rem att pf).attempts := by
  intro rem
  induction rem with
  | zero =>
    intro att pf i r1 r2 cmd tres h1 h2 h3 h4
    simp [codexLoop] at h1
  | succ n ih =>
    intro att pf i r1 r2 cmd tres h1 h2 h3 h4
    unfold codexLoop at h1 h2
    by_cases hx1 : (env.agentResults att).exitCode ≠ 0
    · by_cases h5 : n = 0
      · simp [hx1, h5] at h2
      · simp [hx1, h5] at h1 h2
        rcases i with _ | i
        · simp at h1 h2
          rw [← h1] at h3
          simp at h3
        · simp at h1 h2
          exact ih (att + 1) _ i r1 r2 cmd tres h1 h2 h3 h4
    · by_cases hx2 : env.treeChangedAfter att
      · by_cases hx3 : (jsTrimStr (effSuite cfg env)).isEmpty
        · by_cases hx4 : (jsTrimStr (effSpecific cfg env)).isEmpty
          · simp [hx1, hx2, hx3, hx4] at h2
          · by_cases hx6 : (env.specificResults att).exitCode ≠ 0
            · by_cases h5 : n = 0
              · simp [hx1, hx2, hx3, hx4, hx6, h5] at h2
              · simp [hx1, hx2, hx3, hx4, hx6, h5] at h1 h2
                rcases i with _ | i
                · simp at h1 h2
                  rw [← h1] at h3
                  simp at h3
                  obtain ⟨r, rest2, hr, hpr, hidx⟩ :=
                    codexLoop_head cfg env n (att + 1)
                      (some (truncate (combinedOut (env.specificResults att)) 10000)) h5
                  rw [hr] at h2
                  simp at h2
                  rw [← h3.2, ← h2, hpr]
                  unfold promptAt
                  exact buildPrompt_prevFail_infix _ _ _ _ _ _ (Nat.succ_ne_zero att)
                · simp at h1 h2
                  exact ih (att + 1) _ i r1 r2 cmd tres h1 h2 h3 h4
            · simp [hx1, hx2, hx3, hx4, hx6] at h2
        · by_cases hx6 : (env.suiteResults att).exitCode ≠ 0
          · by_cases h5 : n = 0
            · simp [hx1, hx2, hx3, hx6, h5] at h2
            · simp [hx1, hx2, hx3, hx6, h5] at h1 h2
              rcases i with _ | i
              · simp at h1 h2
                rw [← h1] at h3
                simp at h3
                obtain ⟨r, rest2, hr, hpr, hidx⟩ :=
                  codexLoop_head cfg env n (att + 1)
                    (some (truncate (combinedOut (env.suiteResults att)) 10000)) h5
                rw [hr] at h2
                simp at h2
                rw [← h3.2, ← h2, hpr]
                unfold promptAt
                exact buildPrompt_prevFail_infix _ _ _ _ _ _ (Nat.succ_ne_zero att)
              · simp at h1 h2
                exact ih (att + 1) _ i r1 r2 cmd tres h1 h2 h3 h4
          · simp [hx1, hx2, hx3, hx6] at h2
      · by_cases h5 : n = 0
        · simp [hx1, hx2, h5] at h2
        · simp [hx1, hx2, h5] at h1 h2
          rcases i with _ | i
          · simp at h1 h2
            rw [← h1] at h3
            simp at h3
          · simp at h1 h2
            exact ih (att + 1) _ i r1 r2 cmd tres h1 h2 h3 h4

theorem codexLoop_suite_execs (cfg : RunConfig) (env : RunEnv)
    (hs : (jsTrimStr (effSuite cfg env)).isEmpty = false) :
    ∀ rem att pf, ∀ e ∈ (codexLoop cfg env rem att pf).testExecs,
      e.cmd = effSuite cfg env ∧ ∃ k, e.phase = .verify k ∧ e.beforeAgentInvocations = k + 1 := by
  intro rem
  induction rem with
  | zero =>
    intro att pf e he
    simp [codexLoop] at he
  | succ n ih =>
    intro att pf e he
    unfold codexLoop at he
    by_cases hx1 : (env.agentResults att).exitCode ≠ 0
    · by_cases h5 : n = 0
      · simp [hx1, h5] at he
      · simp [hx1, h5] at he
        exact ih (att + 1) _ e he
    · by_cases hx2 : env.treeChangedAfter att
      · by_cases hx6 : (env.suiteResults att).exitCode ≠ 0
        · by_cases h5 : n = 0
          · simp [hx1, hx2, hs, hx6, h5] at he
            simp [he]
          · simp [hx1, hx2, hs, hx6, h5] at he
            rcases he with he | he
            · simp [he]
            · exact ih (att + 1) _ e he
        · simp [hx1, hx2, hs, hx6] at he
          simp [he]
      · by_cases h5 : n = 0
        · simp [hx1, hx2, h5] at he
        · simp [hx1, hx2, h5] at he
          exact ih (att + 1) _ e he

theorem codexLoop_no_tests (cfg : RunConfig) (env : RunEnv)
    (hs : (jsTrimStr (effSuite cfg env)).isEmpty = true)
    (hp : (jsTrimStr (effSpecific cfg env)).isEmpty = true) :
    ∀ rem att pf, (codexLoop cfg env rem att pf).testExecs = [] ∧
      ∀ r ∈ (codexLoop cfg env rem att pf).attempts, r.verifyRun = none := by
  intro rem
  induction rem with
  | zero =>
    exact fun att pf => ⟨by simp [codexLoop], by simp [codexLoop]⟩
  | succ n ih =>
    intro att pf
    constructor
    · unfold codexLoop
      by_cases hx1 : (env.agentResults att).exitCode ≠ 0
      · by_cases h5 : n = 0
        · simp [hx1, h5]
        · simp [hx1, h5]
          exact (ih (att + 1) _).1
      · by_cases hx2 : env.treeChangedAfter att
        · simp [hx1, hx2, hs, hp]
        · by_cases h5 : n = 0
          · simp [hx1, hx2, h5]
          · simp [hx1, hx2, h5]
            exact (ih (att + 1) _).1
    · intro r hr
      unfold codexLoop at hr
      by_cases hx1 : (env.agentResults att).exitCode ≠ 0
      · by_cases h5 : n = 0
        · simp [hx1, h5] at hr
          simp [hr]
        · simp [hx1, h5] at hr
          rcases hr with hr | hr
          · simp [hr]
          · exact (ih (att + 1) _).2 r hr
      · by_cases hx2 : env.treeChangedAfter att
        · simp [hx1, hx2, hs, hp] at hr
          simp [hr]
        · by_cases h5 : n = 0
          · simp [hx1, hx2, h5] at hr
            simp [hr]
          · simp [hx1, hx2, h5] at hr
            rcases hr with hr | hr
            · simp [hr]
            · exact (ih (att + 1) _).2 r hr

theorem codexLoop_first_success (cfg : RunConfig) (env : RunEnv)
    (hs : (jsTrimStr (effSuite cfg env)).isEmpty = true)
    (hp : (jsTrimStr (effSpecific cfg env)).isEmpty = true)
    (rem att : Nat) (pf : Option String) (hr : rem ≠ 0)
    (h0 : (env.agentResults att).exitCode = 0)
    (hch : env.treeChangedAfter att = true) :
    (codexLoop cfg env rem att pf).success = some (att, promptAt cfg env att pf) := by
  cases rem with
  | zero => exact absurd rfl hr
  | succ n =>
    unfold codexLoop promptAt
    simp [h0, hch, hs, hp]

theorem retryMaxOf_pos (s : String) : 1 ≤ retryMaxOf s := by
  unfold retryMaxOf
  cases h : parseIntJS (if s = "" then "3" else s) with
  | none => show 1 ≤ 3; omega
  | some v =>
    show 1 ≤ (max 1 v).toNat
    have h2 : (1 : Int) ≤ max 1 v := le_max_left 1 v
    omega

/-- Gates passed before the agent-facing part of `run`: credentials
valid, an issues event with an issue number, the required label
present, and the resolved base branch existing on the remote. -/
def reachesAgent (cfg : RunConfig) (env : RunEnv) : Prop :=
  configBad cfg = false ∧ env.eventIsIssues = true ∧
    (∃ n, env.issueNumber = some n) ∧ labelSkip cfg env = false ∧
    env.baseBranchExists = true

theorem runModel_stage (cfg : RunConfig) (env : RunEnv) (h : reachesAgent cfg env) :
    runModel cfg env =
      match cfg.agentType with
      | .aider => aiderStage cfg env
      | .codex => codexStage cfg env := by
  obtain ⟨hc, he, ⟨n, hn⟩, hl, hb⟩ := h
  exact runModel_reach cfg env n hc he hn hl hb

theorem aiderStage_fields (cfg : RunConfig) (env : RunEnv) :
    (aiderStage cfg env).testExecs = preExecsOf cfg env ∧
    (aiderStage cfg env).attempts =
      [⟨0, buildAgentPrompt env.issueTitle (bodyForPrompt env) .aider
        (preFailOutput cfg env) none none,
        (env.agentResults 0).exitCode, env.treeChangedAfter 0, none⟩] := by
  unfold aiderStage finishRun
  by_cases h : (env.agentResults 0).exitCode = 0 <;> simp [h]

theorem aiderStage_success (cfg : RunConfig) (env : RunEnv)
    (h : (env.agentResults 0).exitCode = 0) :
    (aiderStage cfg env).succeededAttempt = some 0 := by
  unfold aiderStage finishRun
  simp [h]

theorem codexStage_fields (cfg : RunConfig) (env : RunEnv) :
    (codexStage cfg env).testExecs =
      preExecsOf cfg env ++ (codexLoop cfg env (retryMaxC cfg) 0 none).testExecs ∧
    (codexStage cfg env).attempts = (codexLoop cfg env (retryMaxC cfg) 0 none).attempts := by
  unfold codexStage finishRun
  cases h : (codexLoop cfg env (retryMaxC cfg) 0 none).success with
  | none => simp [h]
  | some kp => simp [h]

theorem codexStage_success (cfg : RunConfig) (env : RunEnv) (k : Nat) (p : String)
    (h : (codexLoop cfg env (retryMaxC cfg) 0 none).success = some (k, p)) :
    (codexStage cfg env).succeededAttempt = some k := by
  unfold codexStage finishRun
  simp [h]

theorem codexStage_nosuccess (cfg : RunConfig) (env : RunEnv)
    (h : (codexLoop cfg env (retryMaxC cfg) 0 none).success = none) :
    (codexStage cfg env).outcome = (codexLoop cfg env (retryMaxC cfg) 0 none).failOutcome ∧
    (codexStage cfg env).commitRun = false ∧
    (codexStage cfg env).prsOpened = 0 ∧
    (codexStage cfg env).succeededAttempt = none := by
  unfold codexStage
  simp [h]

theorem codexStage_pr (cfg : RunConfig) (env : RunEnv)
    (h : 1 ≤ (codexStage cfg env).prsOpened) :
    ∃ k p, (codexLoop cfg env (retryMaxC cfg) 0 none).success = some (k, p) ∧
      (codexStage cfg env).succeededAttempt = some k := by
  cases hs : (codexLoop cfg env (retryMaxC cfg) 0 none).success with
  | none =>
    have := (codexStage_nosuccess cfg env hs).2.2.1
    omega
  | some kp =>
    obtain ⟨k, p⟩ := kp
    refine ⟨k, p, rfl, ?_⟩
    exact codexStage_success cfg env k p hs

theorem codexLoop_continue (cfg : RunConfig) (env : RunEnv) :
    ∀ rem att pf i r1 cmd tres,
    (codexLoop cfg env rem att pf).attempts[i]? = some r1 →
    r1.verifyRun = some (cmd, tres) → tres.exitCode ≠ 0 → i + 1 < rem →
    ∃ r2, (codexLoop cfg env rem att pf).attempts[i + 1]? = some r2 := by
  intro rem
  induction rem with
  | zero =>
    intro att pf i r1 cmd tres h1 h3 h4 hlt
    omega
  | succ n ih =>
    intro att pf i r1 cmd tres h1 h3 h4 hlt
    unfold codexLoop at h1 ⊢
    by_cases hx1 : (env.agentResults att).exitCode ≠ 0
    · by_cases h5 : n = 0
      · omega
      · simp [hx1, h5] at h1 ⊢
        rcases i with _ | i
        · simp at h1
          rw [← h1] at h3
          simp at h3
        · simp at h1 ⊢
          exact ih (att + 1) _ i r1 cmd tres h1 h3 h4 (by omega)
    · by_cases hx2 : env.treeChangedAfter att
      · by_cases hx3 : (jsTrimStr (effSuite cfg env)).isEmpty
        · by_cases hx4 : (jsTrimStr (effSpecific cfg env)).isEmpty
          · simp [hx1, hx2, hx3, hx4] at h1 ⊢
            rcases i with _ | i
            · simp at h1
              rw [← h1] at h3
              simp at h3
            · simp at h1
          · by_cases hx6 : (env.specificResults att).exitCode ≠ 0
            · by_cases h5 : n = 0
              · omega
              · simp [hx1, hx2, hx3, hx4, hx6, h5] at h1 ⊢
                rcases i with _ | i
                · simp at h1 ⊢
                  obtain ⟨r, rest2, hr, _, _⟩ :=
                    codexLoop_head cfg env n (att + 1)
                      (some (truncate (combinedOut (env.specificResults att)) 10000)) h5
                  rw [hr]
                  exact ⟨r, by simp⟩
                · simp at h1 ⊢
                  exact ih (att + 1) _ i r1 cmd tres h1 h3 h4 (by omega)
            · simp [hx1, hx2, hx3, hx4, hx6] at h1 ⊢
              rcases i with _ | i
              · simp at h1
                rw [← h1] at h3
                simp at h3
                rw [← h3.2] at h4
                simp at hx6
                exact absurd hx6 h4
              · simp at h1
        · by_cases hx6 : (env.suiteResults att).exitCode ≠ 0
          · by_cases h5 : n = 0
            · omega
            · simp [hx1, hx2, hx3, hx6, h5] at h1 ⊢
              rcases i with _ | i
              · simp at h1 ⊢
                obtain ⟨r, rest2, hr, _, _⟩ :=
                  codexLoop_head cfg env n (att + 1)
                    (some (truncate (combinedOut (env.suiteResults att)) 10000)) h5
                rw [hr]
                exact ⟨r, by simp⟩
              · simp at h1 ⊢
                exact ih (att + 1) _ i r1 cmd tres h1 h3 h4 (by omega)
          · simp [hx1, hx2, hx3, hx6] at h1 ⊢
            rcases i with _ | i
            · simp at h1
              rw [← h1] at h3
              simp at h3
              rw [← h3.2] at h4
              simp at hx6
              exact absurd hx6 h4
            · simp at h1
      · by_cases h5 : n = 0
        · omega
        · simp [hx1, hx2, h5] at h1 ⊢
          rcases i with _ | i
          · simp at h1
            rw [← h1] at h3
            simp at h3
          · simp at h1 ⊢
            exact ih (att + 1) _ i r1 cmd tres h1 h3 h4 (by omega)

/-- Aider run exiting 0 with an unchanged working tree: the engine
accepts it and proceeds to the PR without any change check. -/
def cfgC1 : RunConfig := ⟨.aider, "k", "", "", "", "", "", "3", "", "/repo", "gpt-4o"⟩

/-- Environment for the C1 counterexample: agent exits 0 on its only
invocation, the working tree never changes, PR creation succeeds. -/
def envC1 : RunEnv :=
  ⟨true, some 1, [], "t", "b", [], "main", true, ⟨"", "", 0⟩,
    fun _ => ⟨"out", "", 0⟩, fun _ => false,
    fun _ => ⟨"", "", 0⟩, fun _ => ⟨"", "", 0⟩, true⟩

/-- C1 (counterexample): a run in which the agent exits 0 on its only
attempt and the working tree has zero diff afterwards, yet the engine
does not terminate with the no-changes outcome and opens a PR — the
aider branch of `run` accepts exit code 0 without any change check. -/
theorem C1_counterexample :
    (envC1.agentResults 0).exitCode = 0 ∧
    envC1.treeChangedAfter 0 = false ∧
    (runModel cfgC1 envC1).prsOpened = 1 ∧
    (runModel cfgC1 envC1).outcome = Outcome.prOpened := by
  exact ⟨rfl, rfl, rfl, rfl⟩

/-- C1 (amended): in the manual retry loop (codex agent), a run whose
agent exits 0 on every attempt while the working tree has zero diff
after each agent run terminates with the no-changes outcome after
`retryMax` attempts, with no commit, no PR and no successful attempt;
and in codex runs a PR is only ever opened for an attempt that changed
the working tree. The aider branch accepts an exit-0 agent run without
a change check and proceeds towards a commit and PR even with zero
diff. -/
theorem C1_no_changes_amended :
    (∀ cfg env, reachesAgent cfg env → cfg.agentType = .codex →
      (∀ k, k < retryMaxC cfg →
        (env.agentResults k).exitCode = 0 ∧ env.treeChangedAfter k = false) →
      (runModel cfg env).outcome = .noChangesMade ∧
      (runModel cfg env).attempts.length = retryMaxC cfg ∧
      (runModel cfg env).commitRun = false ∧
      (runModel cfg env).prsOpened = 0 ∧
      (runModel cfg env).succeededAttempt = none) ∧
    (∀ cfg env, reachesAgent cfg env → cfg.agentType = .codex →
      1 ≤ (runModel cfg env).prsOpened →
      ∃ k, (runModel cfg env).succeededAttempt = some k ∧
        env.treeChangedAfter k = true) := by
  constructor
  · intro cfg env hr hk hAll
    have hst := runModel_stage cfg env hr
    rw [hk] at hst
    simp only [] at hst
    have hpos : retryMaxC cfg ≠ 0 := by
      have := retryMaxOf_pos cfg.retryMaxInput
      unfold retryMaxC
      omega
    have hAll0 : ∀ j, j < retryMaxC cfg →
        (env.agentResults (0 + j)).exitCode = 0 ∧ env.treeChangedAfter (0 + j) = false := by
      intro j hj
      simpa using hAll j hj
    have hno := codexLoop_noop cfg env (retryMaxC cfg) 0 none hpos hAll0
    have hns := codexStage_nosuccess cfg env hno.1
    rw [hst]
    refine ⟨?_, ?_, hns.2.1, hns.2.2.1, hns.2.2.2⟩
    · rw [hns.1, hno.2.1]
    · rw [(codexStage_fields cfg env).2, hno.2.2.2]
  · intro cfg env hr hk hpr
    have hst := runModel_stage cfg env hr
    rw [hk] at hst
    simp only [] at hst
    rw [hst] at hpr ⊢
    obtain ⟨k, p, hsucc, hatt⟩ := codexStage_pr cfg env hpr
    exact ⟨k, hatt, codexLoop_success_changed cfg env _ _ _ k p hsucc⟩

/-- Codex run in which the agent never changes the working tree. -/
def cfgC1w : RunConfig := ⟨.codex, "k", "", "", "", "", "", "2", "", "/repo", "m"⟩

/-- Environment for the C1 witness: exit code 0 and no changes on every
attempt. -/
def envC1w : RunEnv :=
  ⟨true, some 1, [], "t", "b", [], "main", true, ⟨"", "", 0⟩,
    fun _ => ⟨"", "", 0⟩, fun _ => false,
    fun _ => ⟨"", "", 0⟩, fun _ => ⟨"", "", 0⟩, true⟩

theorem C1_no_changes_amended_witness :
    reachesAgent cfgC1w envC1w ∧
    (runModel cfgC1w envC1w).outcome = Outcome.noChangesMade ∧
    (runModel cfgC1w envC1w).prsOpened = 0 := by
  have hr : reachesAgent cfgC1w envC1w := ⟨rfl, rfl, ⟨1, rfl⟩, rfl, rfl⟩
  have h := C1_no_changes_amended.1 cfgC1w envC1w hr rfl (fun k _ => ⟨rfl, rfl⟩)
  exact ⟨hr, h.1, h.2.2.2.1⟩

/-- C2: in the manual retry loop, when attempt `i` ran its verification
tests and they failed, and attempt `i` is not the last one, attempt
`i + 1` is built and its prompt contains the truncated combined
stdout/stderr of the failing test run of attempt `i`. -/
theorem C2_feedback_threading (cfg : RunConfig) (env : RunEnv)
    (hreach : reachesAgent cfg env) (hk : cfg.agentType = .codex)
    (i : Nat) (r1 : AttemptRec) (cmd : String) (tres : ExecResult)
    (h1 : (runModel cfg env).attempts[i]? = some r1)
    (h3 : r1.verifyRun = some (cmd, tres)) (h4 : tres.exitCode ≠ 0)
    (hlast : i + 1 < retryMaxC cfg) :
    ∃ r2, (runModel cfg env).attempts[i + 1]? = some r2 ∧
      strInfix (truncate (combinedOut tres) 10000) r2.prompt := by
  have hst := runModel_stage cfg env hreach
  rw [hk] at hst
  simp only [] at hst
  rw [hst, (codexStage_fields cfg env).2] at h1 ⊢
  obtain ⟨r2, h2⟩ := codexLoop_continue cfg env (retryMaxC cfg) 0 none i r1 cmd tres h1 h3 h4 hlast
  exact ⟨r2, h2, codexLoop_pair cfg env (retryMaxC cfg) 0 none i r1 r2 cmd tres h1 h2 h3 h4⟩

/-- Codex run with a configured full suite that fails on the first
attempt and passes on the second. -/
def cfgC2w : RunConfig := ⟨.codex, "k", "", "", "", "", "suite", "2", "", "/repo", "m"⟩

/-- Environment for the C2 witness: agent succeeds and changes the tree
on every attempt, the suite fails on attempt 0 with output `FAIL`. -/
def envC2w : RunEnv :=
  ⟨true, some 1, [], "t", "b", [], "main", true, ⟨"", "", 0⟩,
    fun _ => ⟨"", "", 0⟩, fun _ => true,
    fun k => if k = 0 then ⟨"FAIL", "", 1⟩ else ⟨"", "", 0⟩,
    fun _ => ⟨"", "", 0⟩, true⟩

theorem C2_feedback_threading_witness :
    ∃ r2, (runModel cfgC2w envC2w).attempts[1]? = some r2 ∧
      strInfix (truncate (combinedOut ⟨"FAIL", "", 1⟩) 10000) r2.prompt := by
  have h := C2_feedback_threading cfgC2w envC2w ⟨rfl, rfl, ⟨1, rfl⟩, rfl, rfl⟩ rfl
    0 (((runModel cfgC2w envC2w).attempts[0]?).getD ⟨0, "", 0, false, none⟩)
    "suite" ⟨"FAIL", "", 1⟩ (by rfl) (by rfl) (by decide) (by decide)
  simpa using h

/-- Boolean test for the pre-fix phase tag. -/
def isPreFixB : TestPhase → Bool
  | .preFix => true
  | .verify _ => false

/-- C3: when both test commands are configured, every verification test
the engine executes after an agent run is the full suite, and the
specific test is executed exactly once, before any agent invocation;
when neither is configured, the engine executes no test at all and a
successful first agent run that changed the working tree is accepted
without verification. -/
theorem C3_verification_precedence :
    (∀ cfg env, reachesAgent cfg env →
      (jsTrimStr (effSpecific cfg env)).isEmpty = false →
      (jsTrimStr (effSuite cfg env)).isEmpty = false →
      (((runModel cfg env).testExecs.filter (fun e => isPreFixB e.phase)).map
        (fun e => e.cmd) = [effSpecific cfg env]) ∧
      (∀ e ∈ (runModel cfg env).testExecs, isPreFixB e.phase = true →
        e.beforeAgentInvocations = 0) ∧
      (∀ e ∈ (runModel cfg env).testExecs, isPreFixB e.phase = false →
        e.cmd = effSuite cfg env ∧ 0 < e.beforeAgentInvocations)) ∧
    (∀ cfg env, reachesAgent cfg env →
      (jsTrimStr (effSpecific cfg env)).isEmpty = true →
      (jsTrimStr (effSuite cfg env)).isEmpty = true →
      (runModel cfg env).testExecs = [] ∧
      (∀ r ∈ (runModel cfg env).attempts, r.verifyRun = none) ∧
      ((env.agentResults 0).exitCode = 0 →
        (cfg.agentType = .codex → env.treeChangedAfter 0 = true →
          (runModel cfg env).succeededAttempt = some 0) ∧
        (cfg.agentType = .aider → (runModel cfg env).succeededAttempt = some 0))) := by
  constructor
  · intro cfg env hr hp hs
    have hst := runModel_stage cfg env hr
    have hpre : preExecsOf cfg env = [⟨effSpecific cfg env, .preFix, 0⟩] := by
      unfold preExecsOf
      simp [hp]
    cases hk : cfg.agentType with
    | aider =>
      rw [hk] at hst
      simp only [] at hst
      rw [hst, (aiderStage_fields cfg env).1, hpre]
      refine ⟨by simp [isPreFixB], ?_, ?_⟩
      · intro e he _
        simp at he
        simp [he]
      · intro e he hf
        simp at he
        rw [he] at hf
        simp [isPreFixB] at hf
    | codex =>
      rw [hk] at hst
      simp only [] at hst
      rw [hst, (codexStage_fields cfg env).1, hpre]
      have hloop := codexLoop_suite_execs cfg env hs (retryMaxC cfg) 0 none
      refine ⟨?_, ?_, ?_⟩
      · rw [List.filter_append, List.map_append]
        have h2 : (codexLoop cfg env (retryMaxC cfg) 0 none).testExecs.filter
            (fun e => isPreFixB e.phase) = [] := by
          rw [List.filter_eq_nil_iff]
          intro e he
          obtain ⟨_, k, hph, _⟩ := hloop e he
          simp [hph, isPreFixB]
        rw [h2]
        simp [isPreFixB]
      · intro e he hf
        rcases List.mem_append.mp he with he | he
        · simp at he
          simp [he]
        · obtain ⟨_, k, hph, _⟩ := hloop e he
          rw [hph] at hf
          simp [isPreFixB] at hf
      · intro e he hf
        rcases List.mem_append.mp he with he | he
        · simp at he
          rw [he] at hf
          simp [isPreFixB] at hf
        · obtain ⟨hc, k, hph, hb⟩ := hloop e he
          exact ⟨hc, by rw [hb]; omega⟩
  · intro cfg env hr hp hs
    have hst := runModel_stage cfg env hr
    have hpre : preExecsOf cfg env = [] := by
      unfold preExecsOf
      simp [hp]
    cases hk : cfg.agentType with
    | aider =>
      rw [hk] at hst
      simp only [] at hst
      rw [hst]
      refine ⟨by rw [(aiderStage_fields cfg env).1, hpre], ?_, ?_⟩
      · intro r hrr
        rw [(aiderStage_fields cfg env).2] at hrr
        simp at hrr
        simp [hrr]
      · intro h0
        refine ⟨?_, ?_⟩
        · intro hck
          exact absurd hck (by decide)
        · intro _
          exact aiderStage_success cfg env h0
    | codex =>
      rw [hk] at hst
      simp only [] at hst
      rw [hst]
      have hnt := codexLoop_no_tests cfg env hs hp (retryMaxC cfg) 0 none
      refine ⟨?_, ?_, ?_⟩
      · rw [(codexStage_fields cfg env).1, hpre, hnt.1]
        rfl
      · intro r hrr
        rw [(codexStage_fields cfg env).2] at hrr
        exact hnt.2 r hrr
      · intro h0
        refine ⟨?_, ?_⟩
        · intro _ hch
          have hpos : retryMaxC cfg ≠ 0 := by
            have := retryMaxOf_pos cfg.retryMaxInput
            unfold retryMaxC
            omega
          exact codexStage_success cfg env 0 _
            (codexLoop_first_success cfg env hs hp (retryMaxC cfg) 0 none hpos h0 hch)
        · intro hck
          exact absurd hck (by decide)

/-- Codex run with both test commands configured. -/
def cfgC3w : RunConfig := ⟨.codex, "k", "", "", "", "spec", "suite", "2", "", "/repo", "m"⟩

/-- Environment for the C3 witness. -/
def envC3w : RunEnv :=
  ⟨true, some 1, [], "t", "b", [], "main", true, ⟨"", "", 1⟩,
    fun _ => ⟨"", "", 0⟩, fun _ => true,
    fun _ => ⟨"", "", 0⟩, fun _ => ⟨"", "", 0⟩, true⟩

theorem C3_verification_precedence_witness :
    reachesAgent cfgC3w envC3w ∧
    ((runModel cfgC3w envC3w).testExecs.filter (fun e => isPreFixB e.phase)).map
      (fun e => e.cmd) = [effSpecific cfgC3w envC3w] := by
  have hr : reachesAgent cfgC3w envC3w := ⟨rfl, rfl, ⟨1, rfl⟩, rfl, rfl⟩
  exact ⟨hr, (C3_verification_precedence.1 cfgC3w envC3w hr rfl rfl).1⟩

/-- C10: the effective retry budget is always at least 1: every input
yields at least one attempt; a non-numeric input falls back to the
default of 3, and a parsed value below 1 is clamped to 1. -/
theorem C10_retry_budget :
    (∀ s, 1 ≤ retryMaxOf s) ∧
    (∀ s, s ≠ "" → parseIntJS s = none → retryMaxOf s = 3) ∧
    (∀ s v, parseIntJS (if s = "" then "3" else s) = some v → v < 1 →
      retryMaxOf s = 1) ∧
    (∀ cfg env, reachesAgent cfg env → 1 ≤ (runModel cfg env).attempts.length) := by
  refine ⟨retryMaxOf_pos, ?_, ?_, ?_⟩
  · intro s h hp
    unfold retryMaxOf
    rw [if_neg h, hp]
  · intro s v hv hlt
    unfold retryMaxOf
    rw [hv]
    show (max 1 v).toNat = 1
    rw [max_eq_left (le_of_lt hlt)]
    rfl
  · intro cfg env hr
    have hst := runModel_stage cfg env hr
    cases hk : cfg.agentType with
    | aider =>
      rw [hk] at hst
      simp only [] at hst
      rw [hst, (aiderStage_fields cfg env).2]
      simp
    | codex =>
      rw [hk] at hst
      simp only [] at hst
      rw [hst, (codexStage_fields cfg env).2]
      have hpos : retryMaxC cfg ≠ 0 := by
        have := retryMaxOf_pos cfg.retryMaxInput
        unfold retryMaxC
        omega
      obtain ⟨r, rest, hlist, _, _⟩ := codexLoop_head cfg env (retryMaxC cfg) 0 none hpos
      rw [hlist]
      simp

/-- Codex run for the C10 witness. -/
def cfgC10w : RunConfig := ⟨.codex, "k", "", "", "", "", "", "abc", "", "/repo", "m"⟩

/-- Environment for the C10 witness. -/
def envC10w : RunEnv :=
  ⟨true, some 1, [], "t", "b", [], "main", true, ⟨"", "", 0⟩,
    fun _ => ⟨"", "", 0⟩, fun _ => false,
    fun _ => ⟨"", "", 0⟩, fun _ => ⟨"", "", 0⟩, true⟩

theorem C10_retry_budget_witness :
    (("abc" : String) ≠ "" ∧ parseIntJS "abc" = none ∧ retryMaxOf "abc" = 3) ∧
    (reachesAgent cfgC10w envC10w ∧ 1 ≤ (runModel cfgC10w envC10w).attempts.length) := by
  have hr : reachesAgent cfgC10w envC10w := ⟨rfl, rfl, ⟨1, rfl⟩, rfl, rfl⟩
  refine ⟨⟨by decide, by decide, C10_retry_budget.2.1 "abc" (by decide) (by decide)⟩,
    hr, C10_retry_budget.2.2.2 cfgC10w envC10w hr⟩

/-- Occurrence of the literal `pat` at the start of the diff or right
after a newline (relational form of the `(^|\n)` regex alternative). -/
def lineStartOccurs (pat diff : String) : Prop :=
  pat.data <+: diff.data ∨ ('\n' :: pat.data) <:+: diff.data

theorem listInfixB_iff (p s : List Char) : listInfixB p s = true ↔ p <:+: s := by
  unfold listInfixB
  rw [List.any_eq_true]
  constructor
  · rintro ⟨t, ht, hp⟩
    exact List.infix_iff_prefix_suffix.mpr
      ⟨t, List.isPrefixOf_iff_prefix.mp hp, (List.mem_tails t s).mp ht⟩
  · intro h
    obtain ⟨t, hp, hsf⟩ := List.infix_iff_prefix_suffix.mp h
    exact ⟨t, (List.mem_tails t s).mpr hsf, List.isPrefixOf_iff_prefix.mpr hp⟩

theorem hitAtLineStart_iff (diff pat : String) :
    hitAtLineStart diff pat = true ↔ lineStartOccurs pat diff := by
  unfold hitAtLineStart lineStartOccurs
  rw [Bool.or_eq_true, List.isPrefixOf_iff_prefix, listInfixB_iff]
  constructor
  · rintro (h | h)
    · exact Or.inl h
    · right
      have : ("\n" ++ pat).data = '\n' :: pat.data := rfl
      rwa [this] at h
  · rintro (h | h)
    · exact Or.inl h
    · right
      have : ("\n" ++ pat).data = '\n' :: pat.data := rfl
      rwa [this]

theorem validateDiff_ok_bool (diff : String) :
    validateDiff diff = .ok () ↔
      (forbiddenDiffPats.any (fun p => hitAtLineStart diff p) = false ∧
       (nlSplit diff).any (fun l => ("GIT binary patch").data.isPrefixOf l.data) = false ∧
       (nlSplit diff).any emptyHunkLineB = false ∧
       ((nlSplit diff).any atAtLineB = false ∨
        ((nlSplit diff).filter atAtLineB).all hunkHeaderOkB = true)) := by
  unfold validateDiff
  by_cases h1 : forbiddenDiffPats.any (fun p => hitAtLineStart diff p)
  · simp [h1]
  · by_cases h2 : (nlSplit diff).any (fun l => ("GIT binary patch").data.isPrefixOf l.data)
    · simp [h1, h2]
    · by_cases h3 : (nlSplit diff).any emptyHunkLineB
      · simp [h1, h2, h3]
      · by_cases h4 : (nlSplit diff).any atAtLineB
        · by_cases h5 : ((nlSplit diff).filter atAtLineB).all hunkHeaderOkB
          · simp [h1, h2, h3, h4, h5]
          · simp [h1, h2, h3, h4, h5]
        · simp [h1, h2, h3, h4]

/-- Spec-side requirement (formalised from the claim wording): the diff
contains at least one syntactically valid hunk header. -/
def hasValidHunkHeader (d : String) : Bool := (nlSplit d).any hunkHeaderOkB

/-- C4 (counterexample): a diff with no hunk header at all is accepted
by `validateDiff`, so acceptance does not require at least one
syntactically valid hunk header as the claim states. -/
theorem C4_counterexample :
    validateDiff "diff --git a/a.txt b/a.txt\n--- a/a.txt\n+++ b/a.txt\nno hunks" = .ok () ∧
    hasValidHunkHeader
      "diff --git a/a.txt b/a.txt\n--- a/a.txt\n+++ b/a.txt\nno hunks" = false := by
  exact ⟨rfl, rfl⟩

/-- C4 (amended): `validateDiff` accepts a diff if and only if the diff
touches no lockfile path and no path under the CI workflow directory
(at any position, hence under any ordering of its file sections), is
not a binary patch, has no bare `@@` line, and every line starting with
`@@` parses as a well-formed hunk header; a diff with no `@@` line at
all is accepted (the at-least-one-valid-hunk-header requirement is not
enforced). Moreover a single forbidden-path match anywhere rejects the
whole diff with the forbidden-file error. -/
theorem C4_validateDiff_amended (diff : String) :
    (validateDiff diff = .ok () ↔
      ((∀ p ∈ forbiddenDiffPats, ¬ lineStartOccurs p diff) ∧
       (∀ l ∈ nlSplit diff, ¬ (("GIT binary patch" : String).data <+: l.data)) ∧
       (∀ l ∈ nlSplit diff, emptyHunkLineB l = false) ∧
       (∀ l ∈ nlSplit diff, atAtLineB l = true → hunkHeaderOkB l = true))) ∧
    (∀ p ∈ forbiddenDiffPats, lineStartOccurs p diff →
      validateDiff diff = .error forbiddenMsg) := by
  constructor
  · rw [validateDiff_ok_bool]
    constructor
    · rintro ⟨h1, h2, h3, h4⟩
      refine ⟨?_, ?_, ?_, ?_⟩
      · intro p hp hocc
        have := (List.any_eq_true.mpr ⟨p, hp, (hitAtLineStart_iff diff p).mpr hocc⟩)
        rw [h1] at this
        cases this
      · intro l hl hpre
        have hb : (nlSplit diff).any
            (fun l => ("GIT binary patch").data.isPrefixOf l.data) = true := by
          rw [List.any_eq_true]
          exact ⟨l, hl, List.isPrefixOf_iff_prefix.mpr hpre⟩
        rw [h2] at hb
        cases hb
      · intro l hl
        by_cases he : emptyHunkLineB l
        · have := (List.any_eq_true.mpr ⟨l, hl, he⟩)
          rw [h3] at this
          cases this
        · simpa using he
      · intro l hl hat
        rcases h4 with h4 | h4
        · have := (List.any_eq_true.mpr ⟨l, hl, hat⟩)
          rw [h4] at this
          cases this
        · exact List.all_eq_true.mp h4 l (List.mem_filter.mpr ⟨hl, hat⟩)
    · rintro ⟨h1, h2, h3, h4⟩
      refine ⟨?_, ?_, ?_, ?_⟩
      · rw [Bool.eq_false_iff]
        intro hc
        obtain ⟨p, hp, hh⟩ := List.any_eq_true.mp hc
        exact h1 p hp ((hitAtLineStart_iff diff p).mp hh)
      · rw [Bool.eq_false_iff]
        intro hc
        obtain ⟨l, hl, hh⟩ := List.any_eq_true.mp hc
        exact h2 l hl (List.isPrefixOf_iff_prefix.mp hh)
      · rw [Bool.eq_false_iff]
        intro hc
        obtain ⟨l, hl, hh⟩ := List.any_eq_true.mp hc
        rw [h3 l hl] at hh
        cases hh
      · right
        rw [List.all_eq_true]
        intro l hl
        have hm := List.mem_filter.mp hl
        exact h4 l hm.1 hm.2
  · intro p hp hocc
    unfold validateDiff
    rw [if_pos (List.any_eq_true.mpr ⟨p, hp, (hitAtLineStart_iff diff p).mpr hocc⟩)]

theorem C4_validateDiff_amended_witness :
    ("diff --git a/package-lock.json b/package-lock.json\n" : String) ∈ forbiddenDiffPats ∧
    validateDiff "x\ndiff --git a/package-lock.json b/package-lock.json\n@@ -1 +1 @@\n"
      = .error forbiddenMsg :=
  ⟨by decide,
    (C4_validateDiff_amended
      "x\ndiff --git a/package-lock.json b/package-lock.json\n@@ -1 +1 @@\n").2
      "diff --git a/package-lock.json b/package-lock.json\n" (by decide)
      (Or.inr (by decide))⟩

/-- Aider run whose base branch is missing from the remote. -/
def cfgC8w : RunConfig := ⟨.aider, "k", "", "", "", "", "", "3", "", "/repo", "m"⟩

/-- Environment for the C8 witness. -/
def envC8w : RunEnv :=
  ⟨true, some 1, [], "t", "b", [], "main", false, ⟨"", "", 0⟩,
    fun _ => ⟨"", "", 0⟩, fun _ => false,
    fun _ => ⟨"", "", 0⟩, fun _ => ⟨"", "", 0⟩, true⟩

theorem C8_base_branch_missing_witness :
    envC8w.baseBranchExists = false ∧
    (runModel cfgC8w envC8w).outcome = Outcome.baseBranchMissing ∧
    (runModel cfgC8w envC8w).branchCreated = false ∧
    (runModel cfgC8w envC8w).attempts = [] := by
  have h := C8_base_branch_missing cfgC8w envC8w 1 rfl rfl rfl rfl rfl
  exact ⟨rfl, h.1, h.2.2.1, h.2.2.2.1⟩

/-- Removes one final carriage return from a line, when present (the
carriage return absorbed into a following `"\n"` by `split(/\r?\n/)`). -/
def dropLastCR : List Char → List Char
  | [] => []
  | ['\r'] => []
  | c :: rest => c :: dropLastCR rest

/-- Applies a function to the last chunk of a chunk list. -/
def modifyLast (f : List Char → List Char) : List (List Char) → List (List Char)
  | [] => []
  | [x] => [f x]
  | x :: y :: t => x :: modifyLast f (y :: t)

/-- Splits a line list into the preamble (lines before the first line
satisfying `p`) and the sections (each starting with a `p`-line and
running up to the next `p`-line). -/
def chunksBy (p : String → Bool) : List String → List String × List (List String)
  | [] => ([], [])
  | l :: rest =>
    let pr := chunksBy p rest
    if p l then ([], (l :: pr.1) :: pr.2)
    else (l :: pr.1, pr.2)

/-- A section whose heading line is a target of the strip pass. -/
def targetSecB (labels : List String) : List String → Bool
  | [] => false
  | h :: _ => targetLineB labels h

theorem charLinesNeNil (cs : List Char) : charLines cs ≠ [] := by
  induction cs using charLines.induct <;> simp [charLines, consHead]
  case case4 c rest _ _ ih =>
    cases h : charLines rest <;> simp [consHead]

theorem charLinesNoNl (cs : List Char) : ∀ l ∈ charLines cs, '\n' ∉ l := by
  induction cs using charLines.induct with
  | case1 => simp [charLines]
  | case2 rest ih =>
    intro l hl
    simp [charLines] at hl
    rcases hl with hl | hl
    · simp [hl]
    · exact ih l hl
  | case3 rest ih =>
    intro l hl
    simp [charLines] at hl
    rcases hl with hl | hl
    · simp [hl]
    · exact ih l hl
  | case4 c rest h1 h2 ih =>
    intro l hl
    have hc : c ≠ '\n' := fun hcc => h1 hcc
    rw [charLines] at hl
    · cases hcl : charLines rest with
      | nil => exact absurd hcl (charLinesNeNil rest)
      | cons h t =>
        rw [hcl] at hl
        simp [consHead] at hl
        rcases hl with hl | hl
        · rw [hl]
          intro hmem
          rcases List.mem_cons.mp hmem with hx | hx
          · exact hc hx.symm
          · exact ih h (by rw [hcl]; exact List.mem_cons_self h t) hx
        · exact ih l (by rw [hcl]; exact List.mem_cons_of_mem h hl)
    · exact h1
    · exact h2

theorem charLines_nl (rest : List Char) :
    charLines ('\n' :: rest) = [] :: charLines rest := rfl

theorem charLines_crnl (rest : List Char) :
    charLines ('\r' :: '\n' :: rest) = [] :: charLines rest := rfl

theorem charLines_other (c : Char) (rest : List Char) (h1 : c ≠ '\n')
    (h2 : ¬(c = '\r' ∧ ∃ rest2, rest = '\n' :: rest2)) :
    charLines (c :: rest) = consHead c (charLines rest) := by
  rw [charLines]
  · exact fun hc => absurd hc h1
  · intro rest1 hc hr
    exact h2 ⟨hc, rest1, hr⟩

theorem charLinesSingleton (cs : List Char) :
    ∀ l, charLines cs = [l] → l = cs := by
  induction cs using charLines.induct with
  | case1 =>
    intro l h
    simp [charLines] at h
    simp [h]
  | case2 rest ih =>
    intro l h
    rw [charLines_nl] at h
    simp at h
    exact absurd h.2 (charLinesNeNil rest)
  | case3 rest ih =>
    intro l h
    rw [charLines_crnl] at h
    simp at h
    exact absurd h.2 (charLinesNeNil rest)
  | case4 c rest h1 h2 ih =>
    intro l h
    rw [charLines_other c rest (fun hc => h1 hc)
      (fun hx => h2 hx.2.choose hx.1 hx.2.choose_spec)] at h
    cases hcl : charLines rest with
    | nil => exact absurd hcl (charLinesNeNil rest)
    | cons hd t =>
      rw [hcl] at h
      simp [consHead] at h
      have := ih hd (by rw [hcl, h.2])
      rw [← h.1, this]

theorem charLinesOfNoNl (cs : List Char) (h : '\n' ∉ cs) : charLines cs = [cs] := by
  induction cs with
  | nil => rfl
  | cons c rest ih =>
    have hc : c ≠ '\n' := fun hcc => h (by rw [hcc]; exact List.mem_cons_self _ _)
    have hrest : '\n' ∉ rest := fun hm => h (List.mem_cons_of_mem c hm)
    rw [charLines_other c rest hc ?h2, ih hrest]
    · rfl
    case h2 =>
      rintro ⟨_, rest2, hr⟩
      exact hrest (by rw [hr]; exact List.mem_cons_self _ _)

theorem wsDropRightAppendWs (cs : List Char) (c : Char) (hc : isWsChar c = true) :
    wsDropRight (cs ++ [c]) = wsDropRight cs := by
  unfold wsDropRight
  rw [List.reverse_append]
  simp [List.dropWhile, hc]

theorem jsTrimAppendWs (cs : List Char) (c : Char) (hc : isWsChar c = true) :
    jsTrimChars (cs ++ [c]) = jsTrimChars cs := by
  unfold jsTrimChars wsDropLeft
  rw [List.dropWhile_append]
  by_cases h : (cs.dropWhile isWsChar).isEmpty
  · rw [if_pos h]
    have h2 : cs.dropWhile isWsChar = [] := by
      cases hcc : cs.dropWhile isWsChar
      · rfl
      · rw [hcc] at h
        simp at h
    rw [h2]
    simp [List.dropWhile, hc]
  · rw [if_neg h]
    exact wsDropRightAppendWs _ c hc

theorem dropLastCR_cons (c : Char) (rest : List Char)
    (h : ¬(c = '\r' ∧ rest = [])) :
    dropLastCR (c :: rest) = c :: dropLastCR rest := by
  rw [dropLastCR]
  intro hc hr
  exact h ⟨hc, hr⟩

theorem dropLastCRSpec (cs : List Char) :
    cs = dropLastCR cs ∨ cs = dropLastCR cs ++ ['\r'] := by
  induction cs with
  | nil => exact Or.inl rfl
  | cons c rest ih =>
    by_cases hcr : c = '\r' ∧ rest = []
    · right
      rw [hcr.1, hcr.2]
      rfl
    · rw [dropLastCR_cons c rest hcr]
      rcases ih with ih | ih
      · exact Or.inl (congrArg (c :: ·) ih)
      · right
        rw [List.cons_append]
        exact congrArg (c :: ·) ih

theorem jsTrimDropLastCR (cs : List Char) :
    jsTrimChars (dropLastCR cs) = jsTrimChars cs := by
  rcases dropLastCRSpec cs with h | h
  · rw [← h]
  · conv_rhs => rw [h]
    rw [jsTrimAppendWs _ '\r' (by decide)]

theorem modifyLast_cons_of_ne (f : List Char → List Char) (x : List Char)
    (ll : List (List Char)) (h : ll ≠ []) :
    modifyLast f (x :: ll) = x :: modifyLast f ll := by
  cases ll with
  | nil => exact absurd rfl h
  | cons y t => rfl

theorem charLines_append (xs : List Char) (c : Char) :
    charLines (xs ++ [c]) =
      if c = '\n' then modifyLast dropLastCR (charLines xs) ++ [[]]
      else modifyLast (fun l => l ++ [c]) (charLines xs) := by
  induction xs using charLines.induct with
  | case1 =>
    by_cases hc : c = '\n'
    · rw [hc]
      rfl
    · rw [if_neg hc, List.nil_append,
        charLines_other c [] hc (by rintro ⟨_, r2, hr⟩; cases hr)]
      rfl
  | case2 rest ih =>
    have hl : charLines (('\n' :: rest) ++ [c]) = [] :: charLines (rest ++ [c]) := by
      rw [List.cons_append, charLines_nl]
    rw [hl, ih, charLines_nl]
    by_cases hc : c = '\n'
    · rw [if_pos hc, if_pos hc,
        modifyLast_cons_of_ne _ _ _ (charLinesNeNil rest)]
      rfl
    · rw [if_neg hc, if_neg hc,
        modifyLast_cons_of_ne _ _ _ (charLinesNeNil rest)]
  | case3 rest ih =>
    have hl : charLines (('\r' :: '\n' :: rest) ++ [c]) = [] :: charLines (rest ++ [c]) := by
      rw [List.cons_append, List.cons_append, charLines_crnl]
    rw [hl, ih, charLines_crnl]
    by_cases hc : c = '\n'
    · rw [if_pos hc, if_pos hc,
        modifyLast_cons_of_ne _ _ _ (charLinesNeNil rest)]
      rfl
    · rw [if_neg hc, if_neg hc,
        modifyLast_cons_of_ne _ _ _ (charLinesNeNil rest)]
  | case4 c0 rest h1 h2 ih =>
    have hc0 : c0 ≠ '\n' := fun hx => h1 hx
    have hc0r : ¬(c0 = '\r' ∧ ∃ rest2, rest = '\n' :: rest2) :=
      fun hx => h2 hx.2.choose hx.1 hx.2.choose_spec
    cases rest with
    | nil =>
      by_cases hc : c = '\n'
      · rw [hc]
        by_cases hr : c0 = '\r'
        · rw [hr]
          rfl
        · have : charLines [c0, '\n'] = consHead c0 (charLines ['\n']) :=
            charLines_other c0 ['\n'] hc0 (by rintro ⟨hx, _, _⟩; exact hr hx)
          rw [show ([c0] ++ ['\n']) = [c0, '\n'] from rfl, this]
          rw [charLines_other c0 [] hc0 (by rintro ⟨_, r2, hr2⟩; cases hr2)]
          rw [if_pos rfl]
          have hd : dropLastCR [c0] = [c0] := by
            rw [dropLastCR_cons c0 [] (fun hx => hr hx.1)]
            rfl
          simp [charLines, consHead, modifyLast, hd]
      · have h1' : charLines ([c0] ++ [c]) = consHead c0 (charLines [c]) := by
          rw [show ([c0] ++ [c]) = c0 :: [c] from rfl]
          exact charLines_other c0 [c] hc0
            (by rintro ⟨hx, r2, hr2⟩; cases hr2; exact hc rfl)
        have h2' : charLines [c] = [[c]] := by
          rw [charLines_other c [] hc (by rintro ⟨_, r2, hr2⟩; cases hr2)]
          rfl
        rw [h1', h2', if_neg hc,
          charLines_other c0 [] hc0 (by rintro ⟨_, r2, hr2⟩; cases hr2)]
        rfl
    | cons d t =>
      have hstep : charLines ((c0 :: d :: t) ++ [c]) =
          consHead c0 (charLines ((d :: t) ++ [c])) := by
        rw [List.cons_append]
        exact charLines_other c0 ((d :: t) ++ [c]) hc0
          (by
            rintro ⟨hx, r2, hr2⟩
            rw [List.cons_append] at hr2
            have hd : d = '\n' := by
              have := congrArg List.head? hr2
              simpa using this
            exact hc0r ⟨hx, t, by rw [hd]⟩)
      rw [hstep, ih,
        charLines_other c0 (d :: t) hc0 hc0r]
      cases hcl : charLines (d :: t) with
      | nil => exact absurd hcl (charLinesNeNil (d :: t))
      | cons hd tl =>
        by_cases hc : c = '\n'
        · rw [if_pos hc, if_pos hc]
          cases tl with
          | nil =>
            have hhd : hd = d :: t := charLinesSingleton (d :: t) hd hcl
            have hne : hd ≠ [] := by rw [hhd]; simp
            have hdl : dropLastCR (c0 :: hd) = c0 :: dropLastCR hd := by
              apply dropLastCR_cons
              rintro ⟨_, hx⟩
              exact hne hx
            simp [consHead, modifyLast, hdl]
          | cons y ys =>
            simp only [consHead, modifyLast]
            rfl
        · rw [if_neg hc, if_neg hc]
          cases tl with
          | nil => simp [consHead, modifyLast]
          | cons y ys =>
            simp only [consHead, modifyLast]

theorem modifyLast_mem (f : List Char → List Char) (ll : List (List Char))
    (l : List Char) (h : l ∈ ll) :
    l ∈ modifyLast f ll ∨ f l ∈ modifyLast f ll := by
  induction ll with
  | nil => cases h
  | cons x t ih =>
    cases t with
    | nil =>
      simp at h
      right
      rw [h]
      simp [modifyLast]
    | cons y ys =>
      rcases List.mem_cons.mp h with hx | hx
      · left
        rw [hx]
        simp [modifyLast]
      · rcases ih hx with hm | hm
        · left
          simp [modifyLast]
          exact Or.inr hm
        · right
          simp [modifyLast]
          exact Or.inr hm

/-- Heading-regex match of the trimmed form of a line. -/
def lineMatchB (lbl l : List Char) : Bool := headingMatchChars lbl (jsTrimChars l)

theorem lineMatchB_nil (lbl : List Char) : lineMatchB lbl [] = false := rfl

theorem lineMatchB_append_ws (lbl l : List Char) (c : Char) (hc : isWsChar c = true) :
    lineMatchB lbl (l ++ [c]) = lineMatchB lbl l := by
  unfold lineMatchB
  rw [jsTrimAppendWs l c hc]

theorem lineMatchB_dropLastCR (lbl l : List Char) :
    lineMatchB lbl (dropLastCR l) = lineMatchB lbl l := by
  unfold lineMatchB
  rw [jsTrimDropLastCR]

theorem linesAllFalse_peel (lbl : List Char) (t : List Char) (c : Char)
    (hc : isWsChar c = true)
    (H : ∀ l ∈ charLines (t ++ [c]), lineMatchB lbl l = false) :
    ∀ l ∈ charLines t, lineMatchB lbl l = false := by
  intro l hl
  have he := charLines_append t c
  by_cases hcn : c = '\n'
  · rw [if_pos hcn] at he
    rcases modifyLast_mem dropLastCR (charLines t) l hl with hm | hm
    · exact H l (by rw [he]; exact List.mem_append_left _ hm)
    · have := H (dropLastCR l) (by rw [he]; exact List.mem_append_left _ hm)
      rwa [lineMatchB_dropLastCR] at this
  · rw [if_neg hcn] at he
    rcases modifyLast_mem (fun x => x ++ [c]) (charLines t) l hl with hm | hm
    · exact H l (by rw [he]; exact hm)
    · have := H (l ++ [c]) (by rw [he]; exact hm)
      rwa [lineMatchB_append_ws lbl l c hc] at this

theorem linesAllFalse_peelRun (lbl : List Char) :
    ∀ (w : List Char), w.all isWsChar = true →
    ∀ (t : List Char), (∀ l ∈ charLines (t ++ w), lineMatchB lbl l = false) →
    ∀ l ∈ charLines t, lineMatchB lbl l = false := by
  intro w
  induction w using List.reverseRecOn with
  | nil =>
    intro _ t H
    simpa using H
  | append_singleton w' c ih =>
    intro hws t H
    rw [List.all_append] at hws
    rw [Bool.and_eq_true] at hws
    have hw' : w'.all isWsChar = true := hws.1
    have hc : isWsChar c = true := by
      have := hws.2
      simpa using this
    have H2 : ∀ l ∈ charLines ((t ++ w') ++ [c]), lineMatchB lbl l = false := by
      intro l hl
      rw [List.append_assoc] at hl
      exact H l hl
    exact ih hw' t (linesAllFalse_peel lbl (t ++ w') c hc H2)

theorem wsDropRight_decomp (cs : List Char) :
    ∃ w, cs = wsDropRight cs ++ w ∧ w.all isWsChar = true := by
  refine ⟨(cs.reverse.takeWhile isWsChar).reverse, ?_, ?_⟩
  · unfold wsDropRight
    conv_lhs => rw [← List.reverse_reverse cs]
    conv_lhs => rw [← List.takeWhile_append_dropWhile isWsChar cs.reverse]
    rw [List.reverse_append]
  · rw [List.all_eq_true]
    intro x hx
    exact List.mem_takeWhile_imp (List.mem_reverse.mp hx)

theorem linesAllFalse_trimEnd (lbl cs : List Char)
    (H : ∀ l ∈ charLines cs, lineMatchB lbl l = false) :
    ∀ l ∈ charLines (wsDropRight cs), lineMatchB lbl l = false := by
  obtain ⟨w, hdec, hws⟩ := wsDropRight_decomp cs
  apply linesAllFalse_peelRun lbl w hws
  rw [← hdec]
  exact H

theorem charLines_nlsep (a b : List Char) (h : '\n' ∉ a) :
    charLines (a ++ '\n' :: b) = dropLastCR a :: charLines b := by
  induction a with
  | nil => rfl
  | cons c a' ih =>
    have hc : c ≠ '\n' := fun hcc => h (by rw [hcc]; exact List.mem_cons_self _ _)
    have ha' : '\n' ∉ a' := fun hm => h (List.mem_cons_of_mem c hm)
    by_cases hcr : c = '\r' ∧ a' = []
    · rw [hcr.1, hcr.2]
      rfl
    · have hstep : charLines ((c :: a') ++ '\n' :: b) =
          consHead c (charLines (a' ++ '\n' :: b)) := by
        rw [List.cons_append]
        apply charLines_other c (a' ++ '\n' :: b) hc
        rintro ⟨hcr2, r2, hr2⟩
        cases ha : a' with
        | nil => exact hcr ⟨hcr2, ha⟩
        | cons d t =>
          rw [ha, List.cons_append] at hr2
          have hd : d = '\n' := by
            have := congrArg List.head? hr2
            simpa using this
          exact ha' (by rw [ha, hd]; exact List.mem_cons_self _ _)
      rw [hstep, ih ha', dropLastCR_cons c a' hcr]
      rfl

theorem joinLines_allFalse (lbl : List Char) (ls : List String)
    (hnl : ∀ l ∈ ls, '\n' ∉ l.data)
    (H : ∀ l ∈ ls, lineMatchB lbl l.data = false) :
    ∀ lc ∈ charLines (joinLF ls).data, lineMatchB lbl lc = false := by
  induction ls with
  | nil =>
    intro lc hlc
    simp [joinLF, charLines] at hlc
    rw [hlc]
    exact lineMatchB_nil lbl
  | cons x t ih =>
    cases t with
    | nil =>
      intro lc hlc
      rw [show joinLF [x] = x from rfl,
        charLinesOfNoNl x.data (hnl x (List.mem_cons_self _ _))] at hlc
      simp at hlc
      rw [hlc]
      exact H x (List.mem_cons_self _ _)
    | cons y t2 =>
      intro lc hlc
      have hdata : (joinLF (x :: y :: t2)).data =
          x.data ++ '\n' :: (joinLF (y :: t2)).data := by
        rw [show joinLF (x :: y :: t2) = x ++ "\n" ++ joinLF (y :: t2) from rfl]
        show (x.data ++ ("\n" : String).data) ++ (joinLF (y :: t2)).data = _
        rw [List.append_assoc]
        rfl
      rw [hdata, charLines_nlsep x.data _ (hnl x (List.mem_cons_self _ _))] at hlc
      rcases List.mem_cons.mp hlc with hx | hx
      · rw [hx, lineMatchB_dropLastCR]
        exact H x (List.mem_cons_self _ _)
      · exact ih (fun l hl => hnl l (List.mem_cons_of_mem x hl))
          (fun l hl => H l (List.mem_cons_of_mem x hl)) lc hx

theorem chunksBy_recomb (p : String → Bool) (ls : List String) :
    (chunksBy p ls).1 ++ ((chunksBy p ls).2).join = ls := by
  induction ls with
  | nil => rfl
  | cons l rest ih =>
    by_cases h : p l
    · simp only [chunksBy, h, if_true]
      simp only [List.join_cons]
      rw [List.nil_append, List.cons_append, ih]
    · simp only [chunksBy, h, if_false, Bool.false_eq_true]
      rw [List.cons_append, ih]

theorem chunksBy_pre_not (p : String → Bool) (ls : List String) :
    ∀ l ∈ (chunksBy p ls).1, p l = false := by
  induction ls with
  | nil => intro l h; cases h
  | cons x rest ih =>
    intro l hl
    by_cases h : p x
    · simp only [chunksBy, h, if_true] at hl
      cases hl
    · simp only [chunksBy, h, if_false, Bool.false_eq_true] at hl
      rcases List.mem_cons.mp hl with hx | hx
      · rw [hx]
        exact Bool.eq_false_iff.mpr h
      · exact ih l hx

theorem chunksBy_sec_shape (p : String → Bool) (ls : List String) :
    ∀ sec ∈ (chunksBy p ls).2, ∃ h t2, sec = h :: t2 ∧ p h = true ∧
      ∀ l ∈ t2, p l = false := by
  induction ls with
  | nil => intro sec h; cases h
  | cons x rest ih =>
    intro sec hsec
    by_cases h : p x
    · simp only [chunksBy, h, if_true] at hsec
      rcases List.mem_cons.mp hsec with hx | hx
      · exact ⟨x, (chunksBy p rest).1, hx, h, chunksBy_pre_not p rest⟩
      · exact ih sec hx
    · simp only [chunksBy, h, if_false, Bool.false_eq_true] at hsec
      exact ih sec hsec

theorem stripScan_chunks (labels : List String) (ls : List String) :
    stripScan labels false ls =
      (chunksBy headingLikeLine ls).1 ++
        (((chunksBy headingLikeLine ls).2.filter
          (fun sec => !targetSecB labels sec)).join) ∧
    stripScan labels true ls =
      (((chunksBy headingLikeLine ls).2.filter
        (fun sec => !targetSecB labels sec)).join) := by
  induction ls with
  | nil => exact ⟨rfl, rfl⟩
  | cons l rest ih =>
    have htl : targetLineB labels l = true → headingLikeLine l = true := by
      intro h
      unfold targetLineB at h
      unfold headingLikeLine
      exact Bool.and_elim_left h
    by_cases ht : targetLineB labels l
    · have hh : headingLikeLine l = true := htl ht
      have hred1 : stripScan labels false (l :: rest) = stripScan labels true rest := by
        simp [stripScan, ht]
      have hred2 : stripScan labels true (l :: rest) = stripScan labels true rest := by
        simp [stripScan, ht]
      have hch : chunksBy headingLikeLine (l :: rest) =
          ([], (l :: (chunksBy headingLikeLine rest).1) :: (chunksBy headingLikeLine rest).2) := by
        simp [chunksBy, hh]
      have hsec : targetSecB labels (l :: (chunksBy headingLikeLine rest).1) = true := ht
      constructor
      · rw [hred1, ih.2, hch]
        rw [List.filter_cons]
        simp [hsec]
      · rw [hred2, ih.2, hch]
        rw [List.filter_cons]
        simp [hsec]
    · by_cases hh : headingLikeLine l
      · have hred1 : stripScan labels false (l :: rest) = l :: stripScan labels false rest := by
          simp [stripScan, ht]
        have hred2 : stripScan labels true (l :: rest) = l :: stripScan labels false rest := by
          simp [stripScan, ht, hh]
        have hch : chunksBy headingLikeLine (l :: rest) =
            ([], (l :: (chunksBy headingLikeLine rest).1) :: (chunksBy headingLikeLine rest).2) := by
          simp [chunksBy, hh]
        have hsec : targetSecB labels (l :: (chunksBy headingLikeLine rest).1) = false := by
          unfold targetSecB
          exact Bool.eq_false_iff.mpr ht
        constructor
        · rw [hred1, ih.1, hch]
          rw [List.filter_cons]
          simp only [hsec, Bool.not_false, if_true]
          simp
        · rw [hred2, ih.1, hch]
          rw [List.filter_cons]
          simp only [hsec, Bool.not_false, if_true]
          simp
      · have hred1 : stripScan labels false (l :: rest) = l :: stripScan labels false rest := by
          simp [stripScan, ht]
        have hred2 : stripScan labels true (l :: rest) = stripScan labels true rest := by
          simp [stripScan, ht, hh]
        have hch : chunksBy headingLikeLine (l :: rest) =
            (l :: (chunksBy headingLikeLine rest).1, (chunksBy headingLikeLine rest).2) := by
          simp [chunksBy, hh]
        constructor
        · rw [hred1, ih.1, hch]
          rfl
        · rw [hred2, ih.2, hch]

theorem extractGo_none (label : String) (ls : List String)
    (H : ∀ l ∈ ls, headingMatchChars label.data (jsTrimStr l).data = false) :
    extractGo label ls = none := by
  induction ls with
  | nil => rfl
  | cons l rest ih =>
    have h := H l (List.mem_cons_self _ _)
    simp only [extractGo, h, Bool.false_eq_true, if_false]
    exact ih (fun x hx => H x (List.mem_cons_of_mem l hx))

theorem extract_none (s label : String)
    (H : ∀ lc ∈ charLines s.data, lineMatchB label.data lc = false) :
    extractIssueFormFieldValue s label = none := by
  unfold extractIssueFormFieldValue
  by_cases hb : (jsTrimStr s).isEmpty
  · simp [hb]
  · simp only [hb, Bool.false_eq_true, if_false]
    apply extractGo_none
    intro l hl
    unfold splitLinesJS at hl
    obtain ⟨lc, hlc, hmk⟩ := List.mem_map.mp hl
    rw [← hmk]
    exact H lc hlc

theorem stripGo_subset (labels ls : List String) :
    ∀ l ∈ stripGo labels ls, l ∈ ls := by
  intro l hl
  rw [show stripGo labels ls = stripScan labels false ls from rfl,
    (stripScan_chunks labels ls).1] at hl
  rcases List.mem_append.mp hl with h | h
  · rw [← chunksBy_recomb headingLikeLine ls]
    exact List.mem_append_left _ h
  · rw [List.mem_join] at h
    obtain ⟨sec, hsec, hlsec⟩ := h
    have hsec2 := List.mem_filter.mp hsec
    rw [← chunksBy_recomb headingLikeLine ls]
    refine List.mem_append_right _ ?_
    rw [List.mem_join]
    exact ⟨sec, hsec2.1, hlsec⟩

theorem stripGo_noMatch (labels ls : List String) (label : String)
    (hmem : label ∈ labels)
    (H : ∀ l ∈ ls, headingMatchChars label.data (jsTrimStr l).data = true →
      hashWsStartB (jsTrimStr l).data = true) :
    ∀ l ∈ stripGo labels ls, lineMatchB label.data l.data = false := by
  intro l hl
  have hsub : l ∈ ls := stripGo_subset labels ls l hl
  have hlm : lineMatchB label.data l.data =
      headingMatchChars label.data (jsTrimStr l).data := rfl
  rw [show stripGo labels ls = stripScan labels false ls from rfl,
    (stripScan_chunks labels ls).1] at hl
  rw [hlm]
  by_cases hmatch : headingMatchChars label.data (jsTrimStr l).data
  · exfalso
    have hhl : headingLikeLine l = true := H l hsub hmatch
    have htarget : targetLineB labels l = true := by
      unfold targetLineB
      rw [Bool.and_eq_true]
      refine ⟨hhl, ?_⟩
      rw [List.any_eq_true]
      exact ⟨label, hmem, hmatch⟩
    rcases List.mem_append.mp hl with h | h
    · have := chunksBy_pre_not headingLikeLine ls l h
      rw [this] at hhl
      cases hhl
    · rw [List.mem_join] at h
      obtain ⟨sec, hsec, hlsec⟩ := h
      have hsec2 := List.mem_filter.mp hsec
      obtain ⟨hd, t2, hshape, hphd, htail⟩ :=
        chunksBy_sec_shape headingLikeLine ls sec hsec2.1
      rcases (by rw [hshape] at hlsec; exact List.mem_cons.mp hlsec : l = hd ∨ l ∈ t2)
        with hx | hx
      · have hns := hsec2.2
        rw [hshape] at hns
        unfold targetSecB at hns
        rw [← hx] at hns
        simp [htarget] at hns
      · have := htail l hx
        rw [this] at hhl
        cases hhl
  · simpa using hmatch

/-- C5 (counterexample): stripping is not complete for the extractor.
A heading written without whitespace after the hashes (`###User story
issue`) matches the extractor regex `^#{1,6}\s*label\s*$` but not the
strip pass heading detector `^#{1,6}\s+`, so the stripped label is
still found afterwards; and a CRLF body is not preserved byte-identical
(the kept section `### A\r\nx` comes back as `### A\nx`). -/
theorem C5_counterexample :
    extractIssueFormFieldValue
      (stripIssueSections "###User story issue\nvalue\n### Keep\nK" ["User story issue"])
      "User story issue" = some "value" ∧
    stripIssueSections "### A\r\nx\r\n### User story issue\r\ny" ["User story issue"]
      = "### A\nx" := ⟨rfl, rfl⟩

/-- C5 (amended): (1) for every body and label in the stripped set, if
every line matching the label heading regex is also heading-shaped
(hash run followed by whitespace, as the strip pass requires), then
`extractIssueFormFieldValue` on the stripped body returns empty;
(2) on a non-blank body the stripped result is exactly the preamble
plus the sections whose heading matches none of the labels, preserved
line-for-line in order, joined with `"\n"` (CRLF separators normalised
by the split) and trimmed of trailing whitespace; (3) the
preamble/section decomposition used in (2) recombines to the original
line list, its preamble lines are not heading-shaped, and every section
starts with exactly one heading-shaped line. -/
theorem C5_strip_extract_amended :
    (∀ body : String, ∀ labels : List String, ∀ label : String,
      label ∈ labels →
      (∀ l ∈ splitLinesJS body,
        headingMatchChars label.data (jsTrimStr l).data = true →
        hashWsStartB (jsTrimStr l).data = true) →
      extractIssueFormFieldValue (stripIssueSections body labels) label = none) ∧
    (∀ body : String, ∀ labels : List String,
      (jsTrimStr body).isEmpty = false →
      stripIssueSections body labels =
        jsTrimEndStr (joinLF ((chunksBy headingLikeLine (splitLinesJS body)).1 ++
          ((chunksBy headingLikeLine (splitLinesJS body)).2.filter
            (fun sec => !targetSecB labels sec)).join))) ∧
    (∀ p : String → Bool, ∀ ls : List String,
      (chunksBy p ls).1 ++ ((chunksBy p ls).2).join = ls ∧
      (∀ l ∈ (chunksBy p ls).1, p l = false) ∧
      (∀ sec ∈ (chunksBy p ls).2, ∃ h t2, sec = h :: t2 ∧ p h = true ∧
        ∀ l ∈ t2, p l = false)) := by
  refine ⟨?_, ?_, ?_⟩
  · intro body labels label hmem H
    unfold stripIssueSections
    by_cases hb : (jsTrimStr body).isEmpty
    · rw [if_pos hb]
      unfold extractIssueFormFieldValue
      rw [if_pos hb]
    · rw [if_neg hb]
      apply extract_none
      have hdata : (jsTrimEndStr (joinLF (stripGo labels (splitLinesJS body)))).data =
          wsDropRight (joinLF (stripGo labels (splitLinesJS body))).data := rfl
      rw [hdata]
      apply linesAllFalse_trimEnd
      apply joinLines_allFalse
      · intro l hlk
        have hsub : l ∈ splitLinesJS body := stripGo_subset _ _ l hlk
        unfold splitLinesJS at hsub
        obtain ⟨lc, hlc, hmk⟩ := List.mem_map.mp hsub
        rw [← hmk]
        exact charLinesNoNl body.data lc hlc
      · exact stripGo_noMatch labels _ label hmem H
  · intro body labels hb
    unfold stripIssueSections
    rw [if_neg (by rw [hb]; exact Bool.false_ne_true)]
    rw [show stripGo labels (splitLinesJS body) =
      stripScan labels false (splitLinesJS body) from rfl,
      (stripScan_chunks labels (splitLinesJS body)).1]
  · intro p ls
    exact ⟨chunksBy_recomb p ls, chunksBy_pre_not p ls, chunksBy_sec_shape p ls⟩

theorem C5_strip_extract_amended_witness :
    ("User story issue" : String) ∈ (["User story issue"] : List String) ∧
    (∀ l ∈ splitLinesJS "### User story issue\nx\n### Keep\ny",
      headingMatchChars ("User story issue" : String).data (jsTrimStr l).data = true →
      hashWsStartB (jsTrimStr l).data = true) ∧
    extractIssueFormFieldValue
      (stripIssueSections "### User story issue\nx\n### Keep\ny" ["User story issue"])
      "User story issue" = none := by
  refine ⟨by decide, by decide, ?_⟩
  exact C5_strip_extract_amended.1 "### User story issue\nx\n### Keep\ny"
    ["User story issue"] "User story issue" (by decide) (by decide)
